import Mathlib

/-!
# mpv-mp: a shallow embedding of `mpv-mp.go`

The program is a command-line front-end that drives one background `mpv`
process over a unix socket.  This file embeds the functions of `mpv-mp.go`
as executable Lean definitions and proves properties of them.

Conventions of the embedding.

* A Go `string` / `[]byte` is a `List Char`; literals are written
  `"...".toList`.  Invalid UTF-8 cannot be represented and is out of scope.
* Go `int` is the 64-bit signed integer; it is an `Int` together with the
  explicit range `[-2^63, 2^63)` where the range matters (`strconv.Atoi`).
* The socket and the standard output are explicit state (`World`), passed in
  and out of every command; the files and processes are explicit state too
  (`Sys`).  What the system calls return is part of that state, so that every
  error branch of the program can be taken.  Files are told apart by their
  path text.
* `die` (print and `os.Exit(1)`) and a run-time panic end an operation with a
  fatal result that keeps the state reached so far.
* The unbounded `for` loop of `mpvGetProperty` takes a fuel argument; running
  out of fuel is a separate result, never mistaken for a return.  The bounded
  loop of `mpvConnectIPC` takes fuel as well and never uses it up.
* Sleeping is not modelled beyond counting the sleeps.
* The parts of the Go standard library that the program calls
  (`strconv`, `path/filepath`, `strings`, `encoding/json`, `fmt` verbs) are
  modelled after their Go sources for Unix.  The table `unicode.IsPrint` is a
  parameter; the conversion of a JSON number to `float64` is reduced to its
  range check, done in exact arithmetic.
-/

namespace MpvMp

/-! ## Go strings -/

/-- A Go string. -/
abbrev GoString := List Char

/-! ## `strconv` -/

/-- `strconv.Itoa` on a natural number: the decimal digits, `"0"` for zero. -/
def natToDec (n : Nat) : GoString := Nat.toDigits 10 n

/-- `strconv.Itoa`. -/
def strconvItoa (i : Int) : GoString :=
  if i < 0 then '-' :: natToDec i.natAbs else natToDec i.toNat

/-- The byte is an ASCII decimal digit. -/
def isDecDigit (c : Char) : Bool := decide ('0'.toNat ≤ c.toNat ∧ c.toNat ≤ '9'.toNat)

/-- The value of a run of decimal digits, most significant first
(the accumulation `n = n*10 + int(ch - '0')` of `strconv.Atoi`). -/
def decValue (s : GoString) : Nat := s.foldl (fun n ch => n * 10 + (ch.toNat - '0'.toNat)) 0

/-- Smallest and largest Go `int` (64 bit). -/
def minInt : Int := -(2 ^ 63)

/-- Largest Go `int` (64 bit). -/
def maxInt : Int := 2 ^ 63 - 1

/-- `strconv.Atoi` (that is `ParseInt(s, 10, 0)`): an optional sign followed by
one or more decimal digits, in the range of `int`.  `none` stands for the
returned `*NumError` (syntax or range). -/
def strconvAtoi (s : GoString) : Option Int :=
  let parseDigits (neg : Bool) (ds : GoString) : Option Int :=
    if ds = [] then none
    else if !ds.all isDecDigit then none
    else
      let n := decValue ds
      if neg then (if n > 2 ^ 63 then none else some (-(n : Int)))
      else (if n ≥ 2 ^ 63 then none else some (n : Int))
  match s with
  | [] => none
  | '-' :: ds => parseDigits true ds
  | '+' :: ds => parseDigits false ds
  | ds => parseDigits false ds

/-- `fmt.Sprintf("%d", i)`. -/
def fmtD (i : Int) : GoString := strconvItoa i

/-- `fmt.Sprintf("%*d", width, i)` for a non-negative width: the decimal text
right-justified with spaces in a field of `width` characters. -/
def fmtStarD (width : Nat) (i : Int) : GoString :=
  let s := strconvItoa i
  List.replicate (width - s.length) ' ' ++ s

/-- `numDigits` of the program: `len(strconv.Itoa(i))`. -/
def numDigits (i : Int) : Nat := (strconvItoa i).length

/-! ### `strconv.Quote` (the `%q` verb on a string) -/

/-- Two lower-case hexadecimal digits of a byte. -/
def hex2 (n : Nat) : GoString :=
  [Nat.digitChar (n / 16 % 16), Nat.digitChar (n % 16)]

/-- Four lower-case hexadecimal digits. -/
def hex4 (n : Nat) : GoString := hex2 (n / 256) ++ hex2 (n % 256)

/-- Eight lower-case hexadecimal digits. -/
def hex8 (n : Nat) : GoString := hex4 (n / 65536) ++ hex4 (n % 65536)

/-- One rune of `strconv.Quote` (`appendEscapedRune` with quote `"`).
`isPrint` is `unicode.IsPrint`, whose tables are taken as a parameter; it is
consulted for non-ASCII runes only. -/
def quoteRune (isPrint : Char → Bool) (c : Char) : GoString :=
  if c = '"' ∨ c = '\\' then ['\\', c]
  else if 0x20 ≤ c.toNat ∧ c.toNat < 0x7F then [c]
  else if 0x80 ≤ c.toNat ∧ isPrint c then [c]
  else if c.toNat = 7 then "\\a".toList
  else if c.toNat = 8 then "\\b".toList
  else if c.toNat = 12 then "\\f".toList
  else if c.toNat = 10 then "\\n".toList
  else if c.toNat = 13 then "\\r".toList
  else if c.toNat = 9 then "\\t".toList
  else if c.toNat = 11 then "\\v".toList
  else if c.toNat < 0x20 ∨ c.toNat = 0x7F then '\\' :: 'x' :: hex2 c.toNat
  else if c.toNat < 0x10000 then '\\' :: 'u' :: hex4 c.toNat
  else '\\' :: 'U' :: hex8 c.toNat

/-- `strconv.Quote`, the `%q` verb. -/
def strconvQuote (isPrint : Char → Bool) (s : GoString) : GoString :=
  '"' :: (s.flatMap (quoteRune isPrint) ++ ['"'])

/-! ## `strings` -/

/-- `strings.HasPrefix`. -/
def hasPrefix : GoString → GoString → Bool
  | _, [] => true
  | [], _ :: _ => false
  | c :: s, p :: ps => c == p && hasPrefix s ps

/-- `strings.Contains(s, substr)`: `substr` occurs at some offset of `s`. -/
def stringsContains : GoString → GoString → Bool
  | [], sub => hasPrefix [] sub
  | c :: s, sub => hasPrefix (c :: s) sub || stringsContains s sub

/-! ## `path/filepath` (Unix) -/

/-- The path separator test `os.IsPathSeparator`. -/
def isPathSeparator (c : Char) : Bool := c == '/'

/-- Scan of `filepath.Ext` from the end of the path: `revPath` is the part
still to scan, reversed; `acc` the suffix already scanned. -/
def extScan : GoString → GoString → GoString
  | [], _ => []
  | c :: rev, acc =>
    if isPathSeparator c then []
    else if c = '.' then c :: acc
    else extScan rev (c :: acc)

/-- `filepath.Ext`: the suffix beginning at the final dot in the final element
of the path; empty if there is no dot. -/
def filepathExt (path : GoString) : GoString := extScan path.reverse []

/-- `filepath.Base`: the last element of the path, after removing trailing
slashes; `"."` for the empty path and `"/"` for a path of slashes only. -/
def filepathBase (path : GoString) : GoString :=
  if path = [] then ['.']
  else
    let stripped := (path.reverse.dropWhile isPathSeparator).reverse
    let last := (stripped.reverse.takeWhile (fun c => !isPathSeparator c)).reverse
    if last = [] then ['/'] else last

/-- The elements of a path between separators (`""` between two adjacent
separators and at either end). -/
def splitSlash : GoString → List GoString
  | [] => [[]]
  | c :: cs =>
    if c = '/' then [] :: splitSlash cs
    else match splitSlash cs with
      | [] => [[c]]
      | h :: t => (c :: h) :: t

/-- One element in the loop of `filepath.Clean`.  `out` holds the elements
written so far, last first.  An empty element and `.` are dropped; `..`
removes the preceding element when there is one that is not a leading `..`,
is dropped at the root, and is kept in a relative path. -/
def cleanStep (rooted : Bool) (out : List GoString) (e : GoString) : List GoString :=
  if e = [] ∨ e = ['.'] then out
  else if e = ['.', '.'] then
    match out with
    | [] => if rooted then [] else [e]
    | top :: below =>
      if !rooted ∧ top = ['.', '.'] then e :: out else below
  else e :: out

/-- `filepath.Clean` (Unix), element by element. -/
def filepathClean (path : GoString) : GoString :=
  match path with
  | [] => ['.']
  | c :: _ =>
    let rooted := isPathSeparator c
    let out := (splitSlash path).foldl (cleanStep rooted) []
    let body := List.intercalate ['/'] out.reverse
    if rooted then '/' :: body
    else if body = [] then ['.'] else body

/-- `filepath.Join`: the elements from the first non-empty one on, joined by
separators and cleaned; the empty string if all are empty. -/
def filepathJoin : List GoString → GoString
  | [] => []
  | e :: es => if e = [] then filepathJoin es else filepathClean (List.intercalate ['/'] (e :: es))

/-- A path element that `filepath.Clean` keeps as it is: not empty, without a
separator, and neither `.` nor `..`. -/
def cleanElem (e : GoString) : Prop := e ≠ [] ∧ '/' ∉ e ∧ e ≠ ['.'] ∧ e ≠ ['.', '.']

/-! ## `encoding/json`: values -/

/-- A JSON value as read by the scanner.  It is also the content of a Go `any`
after decoding: `nil`, `bool`, `float64` (kept as its literal), `string`,
`[]any` and `map[string]any` (kept as the members in source order; the map
view is `toMap`). -/
inductive JSON
  | null
  | bool (b : Bool)
  | num (tok : GoString)
  | str (s : GoString)
  | arr (xs : List JSON)
  | obj (kvs : List (GoString × JSON))

mutual
/-- Boolean equality of JSON values. -/
def JSON.beq : JSON → JSON → Bool
  | .null, .null => true
  | .bool a, .bool b => a == b
  | .num a, .num b => a == b
  | .str a, .str b => a == b
  | .arr a, .arr b => JSON.beqList a b
  | .obj a, .obj b => JSON.beqMembers a b
  | _, _ => false
/-- Boolean equality of lists of JSON values. -/
def JSON.beqList : List JSON → List JSON → Bool
  | [], [] => true
  | x :: xs, y :: ys => JSON.beq x y && JSON.beqList xs ys
  | _, _ => false
/-- Boolean equality of object members. -/
def JSON.beqMembers : List (GoString × JSON) → List (GoString × JSON) → Bool
  | [], [] => true
  | (k, x) :: xs, (l, y) :: ys => k == l && JSON.beq x y && JSON.beqMembers xs ys
  | _, _ => false
end

mutual
theorem JSON.eq_of_beq : ∀ (a b : JSON), JSON.beq a b = true → a = b
  | .null, .null, _ => rfl
  | .bool a, .bool b, h => by simp [JSON.beq] at h; simp [h]
  | .num a, .num b, h => by simp [JSON.beq] at h; simp [h]
  | .str a, .str b, h => by simp [JSON.beq] at h; simp [h]
  | .arr a, .arr b, h => by
    simp only [JSON.beq] at h; rw [JSON.eq_of_beqList a b h]
  | .obj a, .obj b, h => by
    simp only [JSON.beq] at h; rw [JSON.eq_of_beqMembers a b h]
  | .null, .bool _, h | .null, .num _, h | .null, .str _, h | .null, .arr _, h
  | .null, .obj _, h => by simp [JSON.beq] at h
  | .bool _, .null, h | .bool _, .num _, h | .bool _, .str _, h | .bool _, .arr _, h
  | .bool _, .obj _, h => by simp [JSON.beq] at h
  | .num _, .null, h | .num _, .bool _, h | .num _, .str _, h | .num _, .arr _, h
  | .num _, .obj _, h => by simp [JSON.beq] at h
  | .str _, .null, h | .str _, .bool _, h | .str _, .num _, h | .str _, .arr _, h
  | .str _, .obj _, h => by simp [JSON.beq] at h
  | .arr _, .null, h | .arr _, .bool _, h | .arr _, .num _, h | .arr _, .str _, h
  | .arr _, .obj _, h => by simp [JSON.beq] at h
  | .obj _, .null, h | .obj _, .bool _, h | .obj _, .num _, h | .obj _, .str _, h
  | .obj _, .arr _, h => by simp [JSON.beq] at h
theorem JSON.eq_of_beqList : ∀ (a b : List JSON), JSON.beqList a b = true → a = b
  | [], [], _ => rfl
  | x :: xs, y :: ys, h => by
    simp only [JSON.beqList, Bool.and_eq_true] at h
    rw [JSON.eq_of_beq x y h.1, JSON.eq_of_beqList xs ys h.2]
  | [], _ :: _, h | _ :: _, [], h => by simp [JSON.beqList] at h
theorem JSON.eq_of_beqMembers : ∀ (a b : List (GoString × JSON)),
    JSON.beqMembers a b = true → a = b
  | [], [], _ => rfl
  | (k, x) :: xs, (l, y) :: ys, h => by
    simp only [JSON.beqMembers, Bool.and_eq_true, beq_iff_eq] at h
    rw [h.1.1, JSON.eq_of_beq x y h.1.2, JSON.eq_of_beqMembers xs ys h.2]
  | [], _ :: _, h | _ :: _, [], h => by simp [JSON.beqMembers] at h
end

mutual
theorem JSON.beq_self : ∀ (a : JSON), JSON.beq a a = true
  | .null => rfl
  | .bool a => by simp [JSON.beq]
  | .num a => by simp [JSON.beq]
  | .str a => by simp [JSON.beq]
  | .arr a => by simp only [JSON.beq]; exact JSON.beqList_self a
  | .obj a => by simp only [JSON.beq]; exact JSON.beqMembers_self a
theorem JSON.beqList_self : ∀ (a : List JSON), JSON.beqList a a = true
  | [] => rfl
  | x :: xs => by simp [JSON.beqList, JSON.beq_self x, JSON.beqList_self xs]
theorem JSON.beqMembers_self : ∀ (a : List (GoString × JSON)), JSON.beqMembers a a = true
  | [] => rfl
  | (k, x) :: xs => by simp [JSON.beqMembers, JSON.beq_self x, JSON.beqMembers_self xs]
end

instance : DecidableEq JSON := fun a b =>
  if h : JSON.beq a b = true then isTrue (JSON.eq_of_beq a b h)
  else isFalse (fun e => h (e ▸ JSON.beq_self a))

/-! ## `encoding/json`: the scanner

The scanner of `encoding/json` is a state machine fed one byte at a time
(`scanner.step`), with a stack `parseState` of the enclosing composite values.
The embedding keeps both and lets every stack entry carry the part of the
composite value read so far, so that the value is built while it is scanned. -/

/-- `isSpace` of the scanner. -/
def isSpace (c : Char) : Bool := c == ' ' || c == '\t' || c == '\r' || c == '\n'

/-- The byte is a hexadecimal digit. -/
def isHexDigit (c : Char) : Bool :=
  isDecDigit c || decide ('a'.toNat ≤ c.toNat ∧ c.toNat ≤ 'f'.toNat)
    || decide ('A'.toNat ≤ c.toNat ∧ c.toNat ≤ 'F'.toNat)

/-- The value of a hexadecimal digit. -/
def hexDigitValue (c : Char) : Nat :=
  if isDecDigit c then c.toNat - '0'.toNat
  else if 'a'.toNat ≤ c.toNat ∧ c.toNat ≤ 'f'.toNat then c.toNat - 'a'.toNat + 10
  else c.toNat - 'A'.toNat + 10

/-- First pass of `unquote` over the text between the quotes of a string
literal: every character or escape becomes one code unit. -/
def unquoteUnits : GoString → List Nat
  | [] => []
  | '\\' :: 'u' :: a :: b :: c :: d :: rest =>
    (((hexDigitValue a * 16 + hexDigitValue b) * 16 + hexDigitValue c) * 16 + hexDigitValue d)
      :: unquoteUnits rest
  | '\\' :: x :: rest =>
    (if x = 'b' then 8 else if x = 'f' then 12 else if x = 'n' then 10
     else if x = 'r' then 13 else if x = 't' then 9 else x.toNat) :: unquoteUnits rest
  | c :: rest => c.toNat :: unquoteUnits rest

/-- Second pass of `unquote`: a high surrogate directly followed by a low
surrogate is one rune, any other surrogate is U+FFFD. -/
def combineSurrogates : List Nat → GoString
  | [] => []
  | u :: rest =>
    if 0xD800 ≤ u ∧ u < 0xE000 then
      match rest with
      | [] => [Char.ofNat 0xFFFD]
      | lo :: rest2 =>
        if u < 0xDC00 ∧ 0xDC00 ≤ lo ∧ lo < 0xE000 then
          Char.ofNat (0x10000 + (u - 0xD800) * 0x400 + (lo - 0xDC00)) :: combineSurrogates rest2
        else Char.ofNat 0xFFFD :: combineSurrogates (lo :: rest2)
    else Char.ofNat u :: combineSurrogates rest

/-- `unquote`: the string denoted by the text between the quotes of a literal. -/
def unquote (raw : GoString) : GoString := combineSurrogates (unquoteUnits raw)

/-- One entry of the scanner's `parseState` stack, with the part of the
composite value read so far (last read first). -/
inductive Frame
  /-- State `parseObjectKey`: members read, and the key once it is read. -/
  | objectKey (members : List (GoString × JSON)) (key : GoString)
  /-- State `parseObjectValue`: members read, the key of the member being read,
  and its value once it is read. -/
  | objectValue (members : List (GoString × JSON)) (key : GoString)
  /-- State `parseArrayValue`. -/
  | arrayValue (elems : List JSON)

/-- The scanner's `step` function, as data. -/
inductive Step
  | beginValue | beginValueOrEmpty | beginStringOrEmpty | beginString | endValue
  | inString | inStringEsc | inStringEscU (seen : Nat)
  | neg | num1 | num0 | dot | dot0 | e | eSign | e0
  /-- Inside `true`, `false` or `null`: the bytes still expected. -/
  | literal (expect : GoString) (v : JSON)

/-- The scanner. -/
structure Scanner where
  /-- Current state function. -/
  step : Step
  /-- Stack of enclosing composite values, innermost first. -/
  parseState : List Frame
  /-- Text of the string or number being read, last byte first. -/
  tok : GoString
  /-- The completed top-level value, once there is one. -/
  top : Option JSON

/-- `maxNestingDepth`. -/
def maxNestingDepth : Nat := 10000

/-- What one byte does to the scanner, as far as `readValue` looks at it. -/
inductive ScanResult
  /-- The byte is consumed and the value goes on (`scanContinue` and the other
  codes that `readValue` does not single out). -/
  | continue (s : Scanner)
  /-- `scanEnd`: the top-level value ended before this byte. -/
  | endBefore (v : JSON)
  /-- `scanEndObject` / `scanEndArray` closing the top-level value. -/
  | endAfter (v : JSON)
  /-- `scanError`. -/
  | error

/-- A value is complete: it becomes the key or the value of the member being
read, the next element of the array being read, or the top-level value.  The
next state is `stateEndValue`. -/
def Scanner.complete (s : Scanner) (v : JSON) : Scanner :=
  match s.parseState with
  | [] => { step := .endValue, parseState := [], tok := [], top := some v }
  | .objectKey ms _ :: below =>
    -- only a string literal can be completed in this state
    let key := match v with
      | .str k => k
      | _ => []
    { step := .endValue, parseState := .objectKey ms key :: below, tok := [], top := none }
  | .objectValue ms key :: below =>
    { step := .endValue, parseState := .objectValue ((key, v) :: ms) key :: below, tok := [],
      top := none }
  | .arrayValue es :: below =>
    { step := .endValue, parseState := .arrayValue (v :: es) :: below, tok := [], top := none }

/-- A closing bracket after `popParseState`: the composite value `v` is
complete; it closes the top-level value when the stack is empty now. -/
def Scanner.close (below : List Frame) (v : JSON) : ScanResult :=
  match below with
  | [] => .endAfter v
  | _ :: _ => .continue (Scanner.complete ⟨.endValue, below, [], none⟩ v)

/-- `stateEndValue`: the state after a value. -/
def stateEndValue (s : Scanner) (c : Char) : ScanResult :=
  match s.parseState with
  | [] =>
    match s.top with
    | some v => .endBefore v
    | none => .error
  | frame :: below =>
    if isSpace c then .continue { s with step := .endValue }
    else match frame with
      | .objectKey ms key =>
        if c = ':' then
          .continue { s with step := .beginValue, parseState := .objectValue ms key :: below }
        else .error
      | .objectValue ms _ =>
        if c = ',' then
          .continue { s with step := .beginString, parseState := .objectKey ms [] :: below }
        else if c = '}' then Scanner.close below (.obj ms.reverse)
        else .error
      | .arrayValue es =>
        if c = ',' then .continue { s with step := .beginValue }
        else if c = ']' then Scanner.close below (.arr es.reverse)
        else .error

/-- `pushParseState`: enter a composite value unless it nests too deep. -/
def Scanner.push (s : Scanner) (f : Frame) (next : Step) : ScanResult :=
  if s.parseState.length + 1 ≤ maxNestingDepth then
    .continue { s with step := next, parseState := f :: s.parseState }
  else .error

/-- `stateBeginValue`: the state at the beginning of a value. -/
def stateBeginValue (s : Scanner) (c : Char) : ScanResult :=
  if isSpace c then .continue s
  else if c = '{' then s.push (.objectKey [] []) .beginStringOrEmpty
  else if c = '[' then s.push (.arrayValue []) .beginValueOrEmpty
  else if c = '"' then .continue { s with step := .inString, tok := [] }
  else if c = '-' then .continue { s with step := .neg, tok := [c] }
  else if c = '0' then .continue { s with step := .num0, tok := [c] }
  else if c = 't' then .continue { s with step := .literal "rue".toList (.bool true) }
  else if c = 'f' then .continue { s with step := .literal "alse".toList (.bool false) }
  else if c = 'n' then .continue { s with step := .literal "ull".toList .null }
  else if '1'.toNat ≤ c.toNat ∧ c.toNat ≤ '9'.toNat then
    .continue { s with step := .num1, tok := [c] }
  else .error

/-- `stateBeginString`: the state before an object key. -/
def stateBeginString (s : Scanner) (c : Char) : ScanResult :=
  if isSpace c then .continue s
  else if c = '"' then .continue { s with step := .inString, tok := [] }
  else .error

/-- The number being read ends before byte `c`: `stateEndValue(s, c)` reached
from a number state. -/
def endNumber (s : Scanner) (c : Char) : ScanResult :=
  stateEndValue (s.complete (.num s.tok.reverse)) c

/-- One call of `scanner.step`. -/
def Scanner.scanStep (s : Scanner) (c : Char) : ScanResult :=
  match s.step with
  | .beginValue => stateBeginValue s c
  | .beginValueOrEmpty =>
    if isSpace c then .continue s
    else if c = ']' then stateEndValue s c
    else stateBeginValue { s with step := .beginValue } c
  | .beginStringOrEmpty =>
    if isSpace c then .continue s
    else if c = '}' then
      match s.parseState with
      | .objectKey ms key :: below =>
        stateEndValue { s with parseState := .objectValue ms key :: below } c
      | _ => .error
    else stateBeginString { s with step := .beginString } c
  | .beginString => stateBeginString s c
  | .endValue => stateEndValue s c
  | .inString =>
    if c = '"' then .continue (s.complete (.str (unquote s.tok.reverse)))
    else if c = '\\' then .continue { s with step := .inStringEsc, tok := c :: s.tok }
    else if c.toNat < 0x20 then .error
    else .continue { s with tok := c :: s.tok }
  | .inStringEsc =>
    if c = 'b' ∨ c = 'f' ∨ c = 'n' ∨ c = 'r' ∨ c = 't' ∨ c = '\\' ∨ c = '/' ∨ c = '"' then
      .continue { s with step := .inString, tok := c :: s.tok }
    else if c = 'u' then .continue { s with step := .inStringEscU 0, tok := c :: s.tok }
    else .error
  | .inStringEscU seen =>
    if isHexDigit c then
      .continue { s with step := (if seen < 3 then .inStringEscU (seen + 1) else .inString),
                         tok := c :: s.tok }
    else .error
  | .neg =>
    if c = '0' then .continue { s with step := .num0, tok := c :: s.tok }
    else if '1'.toNat ≤ c.toNat ∧ c.toNat ≤ '9'.toNat then
      .continue { s with step := .num1, tok := c :: s.tok }
    else .error
  | .num1 =>
    if isDecDigit c then .continue { s with tok := c :: s.tok }
    else if c = '.' then .continue { s with step := .dot, tok := c :: s.tok }
    else if c = 'e' ∨ c = 'E' then .continue { s with step := .e, tok := c :: s.tok }
    else endNumber s c
  | .num0 =>
    if c = '.' then .continue { s with step := .dot, tok := c :: s.tok }
    else if c = 'e' ∨ c = 'E' then .continue { s with step := .e, tok := c :: s.tok }
    else endNumber s c
  | .dot =>
    if isDecDigit c then .continue { s with step := .dot0, tok := c :: s.tok }
    else .error
  | .dot0 =>
    if isDecDigit c then .continue { s with tok := c :: s.tok }
    else if c = 'e' ∨ c = 'E' then .continue { s with step := .e, tok := c :: s.tok }
    else endNumber s c
  | .e =>
    if c = '+' ∨ c = '-' then .continue { s with step := .eSign, tok := c :: s.tok }
    else if isDecDigit c then .continue { s with step := .e0, tok := c :: s.tok }
    else .error
  | .eSign =>
    if isDecDigit c then .continue { s with step := .e0, tok := c :: s.tok }
    else .error
  | .e0 =>
    if isDecDigit c then .continue { s with tok := c :: s.tok }
    else endNumber s c
  | .literal expect v =>
    match expect with
    | [] => .error
    | x :: more =>
      if c = x then
        (if more = [] then .continue (s.complete v)
         else .continue { s with step := .literal more v })
      else .error

/-- `scanner.reset`. -/
def Scanner.reset : Scanner := { step := .beginValue, parseState := [], tok := [], top := none }

/-- What `Decoder.readValue` returns. -/
inductive ReadValue
  /-- A complete value, and the bytes of the buffer after it. -/
  | value (v : JSON) (rest : GoString)
  /-- Error `io.EOF`: only white space was left. -/
  | eof
  /-- Error `io.ErrUnexpectedEOF`: the buffer ends inside a value. -/
  | unexpectedEOF
  /-- A `*SyntaxError`. -/
  | syntaxError

/-- The byte loop of `readValue`.  At the end of the input the scanner is fed
a space, which ends a top-level number, string or literal; `none` is the end
of the input inside or before a value. -/
def scanLoop : Scanner → GoString → Option ReadValue
  | s, [] =>
    match s.scanStep ' ' with
    | .endBefore v => some (.value v [])
    | _ => none
  | s, c :: cs =>
    match s.scanStep c with
    | .continue s1 => scanLoop s1 cs
    | .endBefore v => some (.value v (c :: cs))
    | .endAfter v => some (.value v cs)
    | .error => some .syntaxError

/-- `Decoder.readValue` on a reader that holds `buf`. -/
def readValue (buf : GoString) : ReadValue :=
  match scanLoop Scanner.reset buf with
  | some r => r
  | none => if buf.any (fun c => !isSpace c) then .unexpectedEOF else .eof

instance : DecidableEq ReadValue := fun a b =>
  match a, b with
  | .value v r, .value w q =>
    if h : v = w ∧ r = q then isTrue (by rw [h.1, h.2])
    else isFalse (fun e => h (by cases e; exact ⟨rfl, rfl⟩))
  | .eof, .eof => isTrue rfl
  | .unexpectedEOF, .unexpectedEOF => isTrue rfl
  | .syntaxError, .syntaxError => isTrue rfl
  | .value _ _, .eof | .value _ _, .unexpectedEOF | .value _ _, .syntaxError
  | .eof, .value _ _ | .eof, .unexpectedEOF | .eof, .syntaxError
  | .unexpectedEOF, .value _ _ | .unexpectedEOF, .eof | .unexpectedEOF, .syntaxError
  | .syntaxError, .value _ _ | .syntaxError, .eof | .syntaxError, .unexpectedEOF =>
    isFalse (fun e => by cases e)

/-! ## `encoding/json`: decoding into the program's types -/

/-- Split a number literal into its digits without the point and its decimal
exponent: the literal denotes `±digits * 10 ^ exponent`. -/
def decimalOf (tok : GoString) : Nat × Int :=
  let body := match tok with
    | '-' :: r => r
    | r => r
  let intPart := body.takeWhile isDecDigit
  let r1 := body.dropWhile isDecDigit
  let frac := match r1 with
    | '.' :: r => r.takeWhile isDecDigit
    | _ => []
  let r2 := match r1 with
    | '.' :: r => r.dropWhile isDecDigit
    | r => r
  let exp : Int := match r2 with
    | _ :: '-' :: ds => -(decValue ds : Int)
    | _ :: '+' :: ds => (decValue ds : Int)
    | _ :: ds => (decValue ds : Int)
    | [] => 0
  (decValue (intPart ++ frac), exp - frac.length)

/-- The literal is out of the range of `float64`, so that
`strconv.ParseFloat(tok, 64)` fails with `ErrRange`: its magnitude is at least
`2^1024 - 2^970`, half-way between the largest `float64` and `2^1024`. -/
def floatOutOfRange (tok : GoString) : Bool :=
  let me := decimalOf tok
  if 0 ≤ me.2 then decide (2 ^ 1024 - 2 ^ 970 ≤ me.1 * 10 ^ me.2.toNat)
  else decide ((2 ^ 1024 - 2 ^ 970) * 10 ^ (-me.2).toNat ≤ me.1)

mutual
/-- Some number in the value is out of the range of `float64`: decoding the
value into an `any` saves an error (`convertNumber`). -/
def JSON.rangeErr : JSON → Bool
  | .num tok => floatOutOfRange tok
  | .arr xs => JSON.rangeErrList xs
  | .obj kvs => JSON.rangeErrMembers kvs
  | _ => false
/-- Some element has a number out of range. -/
def JSON.rangeErrList : List JSON → Bool
  | [] => false
  | x :: xs => JSON.rangeErr x || JSON.rangeErrList xs
/-- Some member has a number out of range. -/
def JSON.rangeErrMembers : List (GoString × JSON) → Bool
  | [] => false
  | (_, x) :: xs => JSON.rangeErr x || JSON.rangeErrMembers xs
end

mutual
/-- The `any` that `valueInterface` builds for the value: a number out of
range becomes `nil` (`literalInterface` returns the `nil` of `convertNumber`). -/
def JSON.toAny : JSON → JSON
  | .num tok => if floatOutOfRange tok then .null else .num tok
  | .arr xs => .arr (JSON.toAnyList xs)
  | .obj kvs => .obj (JSON.toAnyMembers kvs)
  | v => v
/-- Elementwise `toAny`. -/
def JSON.toAnyList : List JSON → List JSON
  | [] => []
  | x :: xs => JSON.toAny x :: JSON.toAnyList xs
/-- Memberwise `toAny`. -/
def JSON.toAnyMembers : List (GoString × JSON) → List (GoString × JSON)
  | [] => []
  | (k, x) :: xs => (k, JSON.toAny x) :: JSON.toAnyMembers xs
end

/-- The rune as `foldName` folds it, for comparison with an ASCII field name:
ASCII letters in upper case, and the two non-ASCII runes whose simple case
folding is an ASCII letter (U+017F to `S`, U+212A to `K`). -/
def foldRune (c : Char) : Char :=
  if 'a'.toNat ≤ c.toNat ∧ c.toNat ≤ 'z'.toNat then Char.ofNat (c.toNat - 32)
  else if c.toNat = 0x17F then 'S'
  else if c.toNat = 0x212A then 'K'
  else c

/-- An object key names the struct field with JSON name `name`: equal, or equal
under case folding. -/
def keyMatches (key name : GoString) : Bool :=
  key == name || key.map foldRune == name.map foldRune

/-- The struct `mpvCommandResult`; `Data` is an `any`, `nil` being `JSON.null`. -/
structure mpvCommandResult where
  /-- Field `Data any`, tag `json:"data"`. -/
  Data : JSON
  /-- Field `Error string`, tag `json:"error"`. -/
  Error : GoString
  /-- Field `RequestId int`, tag `json:"request_id"`. -/
  RequestId : Int
  deriving DecidableEq

/-- The zero value `var res mpvCommandResult`. -/
def mpvCommandResult.zero : mpvCommandResult := { Data := .null, Error := [], RequestId := 0 }

/-- One member of a JSON object decoded into an `mpvCommandResult`.  The flag
is set when an `UnmarshalTypeError` is saved; decoding goes on after it.  A
member that names no field is skipped, and `null` leaves a `string` or `int`
field as it is.  A number for `data` goes through `literalStore`: when it is
out of the range of `float64` the error is saved and `Data` stays as it was.
An array or object for `data` goes through `valueInterface` and is stored even
when a number inside it is out of range. -/
def storeResultField (acc : mpvCommandResult × Bool) (kv : GoString × JSON) :
    mpvCommandResult × Bool :=
  let res := acc.1
  if keyMatches kv.1 "data".toList then
    match kv.2 with
    | .num tok =>
      if floatOutOfRange tok then (res, true)
      else ({ res with Data := .num tok }, acc.2)
    | v => ({ res with Data := v.toAny }, acc.2 || v.rangeErr)
  else if keyMatches kv.1 "error".toList then
    match kv.2 with
    | .str s => ({ res with Error := s }, acc.2)
    | .null => acc
    | _ => (res, true)
  else if keyMatches kv.1 "request_id".toList then
    match kv.2 with
    | .num tok =>
      match strconvAtoi tok with
      | some n => ({ res with RequestId := n }, acc.2)
      | none => (res, true)
    | .null => acc
    | _ => (res, true)
  else acc

/-- The unmarshalling step of `Decode(&res)`: the value read is stored into
`res`; the flag says that an `UnmarshalTypeError` is returned. -/
def unmarshalResult (v : JSON) (res : mpvCommandResult) : mpvCommandResult × Bool :=
  match v with
  | .obj kvs => kvs.foldl storeResultField (res, false)
  | .null => (res, false)
  | _ => (res, true)

/-- The errors `Decode` can return. -/
inductive DecodeErr
  /-- Error `io.EOF`. -/
  | eof
  /-- Error `io.ErrUnexpectedEOF`. -/
  | unexpectedEOF
  /-- A `*json.SyntaxError`. -/
  | syntaxError
  /-- A `*json.UnmarshalTypeError`. -/
  | unmarshalType
  deriving DecidableEq

/-- A `json.Decoder` over `bytes.NewReader(buf)`: the bytes not yet consumed and
the error `dec.err`, which once set is returned by every later `Decode`. -/
structure Decoder where
  /-- Bytes not yet consumed. -/
  buf : GoString
  /-- Field `dec.err`. -/
  err : Option DecodeErr
  deriving DecidableEq

/-- `json.NewDecoder(bytes.NewReader(buf))`. -/
def NewDecoder (buf : GoString) : Decoder := { buf := buf, err := none }

/-- `dec.Decode(&res)`.  A read error (end of input, syntax) is stored in
`dec.err`; an unmarshalling error is not, since a complete value was consumed. -/
def Decoder.Decode (dec : Decoder) (res : mpvCommandResult) :
    Decoder × mpvCommandResult × Option DecodeErr :=
  match dec.err with
  | some e => (dec, res, some e)
  | none =>
    match readValue dec.buf with
    | .eof => ({ dec with err := some .eof }, res, some .eof)
    | .unexpectedEOF => ({ dec with err := some .unexpectedEOF }, res, some .unexpectedEOF)
    | .syntaxError => ({ dec with err := some .syntaxError }, res, some .syntaxError)
    | .value v rest =>
      let r := unmarshalResult v res
      ({ buf := rest, err := none }, r.1, if r.2 then some .unmarshalType else none)

/-- The decode loop of `mpvGetProperty`:
`for { err := dec.Decode(&res); if err == nil { ok = true; break }; if err == io.EOF { break } }`.
The result is `ok` and `res` after the loop, or `none` when the fuel is used up
before the loop ends. -/
def decodeLoop : Nat → Decoder → mpvCommandResult → Option (Bool × mpvCommandResult)
  | 0, _, _ => none
  | fuel + 1, dec, res =>
    match dec.Decode res with
    | (_, res1, none) => some (true, res1)
    | (_, res1, some .eof) => some (false, res1)
    | (dec1, res1, some _) => decodeLoop fuel dec1 res1

/-- The JSON values that the first `k` calls of `Decode` can read from a
buffer, up to the first read that fails. -/
def valuesRead : Nat → GoString → List JSON
  | 0, _ => []
  | k + 1, buf =>
    match readValue buf with
    | .value v rest => v :: valuesRead k rest
    | _ => []

/-! ## The control channel and the ways an invocation ends -/

/-- What a call of `ipc.Write(cmdByte)` returns. -/
inductive WriteOutcome
  /-- All bytes written, `err == nil`. -/
  | full
  /-- A non-nil `err`. -/
  | failed
  /-- No error, but `n != len(cmdByte)`. -/
  | short
  deriving DecidableEq

/-- What one call of `ipcReceiveMsg` meets on the socket. -/
inductive Drain
  /-- Method `SetReadDeadline` fails. -/
  | deadlineError
  /-- The chunks returned by the successive `ipc.Read` calls before the first
  one that fails (deadline expired, peer closed, or another error). -/
  | reads (chunks : List GoString)
  deriving DecidableEq

/-- The connection `ipc` and the standard output of one invocation. -/
structure World where
  /-- Payload of every `ipc.Write` call made so far, in order. -/
  written : List GoString
  /-- Outcomes of the coming `ipc.Write` calls; once the list is used up every
  write is complete. -/
  writeResults : List WriteOutcome
  /-- What the coming calls of `ipcReceiveMsg` meet; once the list is used up
  nothing arrives any more. -/
  incoming : List Drain
  /-- Argument of every `fmt.Println` call made so far, in order. -/
  stdout : List GoString
  deriving DecidableEq

/-- The call of `check(err)` that met a non-nil error. -/
inductive CheckSite
  | write | setReadDeadline | marshal | unmarshal | atoi | kill | removeAll | start
  | writeFile | dial
  deriving DecidableEq

/-- The ways an invocation ends before its time. -/
inductive Fatal
  /-- Function `usage()`. -/
  | usage
  /-- Message `couldn't read file`. -/
  | couldntReadFile (path : GoString)
  /-- Message `couldn't stat file`. -/
  | couldntStat (path : GoString)
  /-- Message `couldn't get mpv ipc`. -/
  | couldntGetIPC (path : GoString)
  /-- Message `incorrect playlist position`. -/
  | incorrectPlaylistPosition (pos : Int)
  /-- Message `couldn't get property`. -/
  | couldntGetProperty (propertyName : GoString)
  /-- Message `incorrect arg ...: length too long`. -/
  | lengthTooLong (cmd : GoString)
  /-- Message `unexpected error`, from `check(err)`. -/
  | unexpectedError (site : CheckSite)
  /-- A run-time panic: a failed type assertion or an index out of range. -/
  | panic
  deriving DecidableEq

/-- Result of an operation on the channel: a value and the state after it, a
fatal end with the state reached, or the fuel of a loop used up. -/
inductive Res (α : Type)
  | ok (a : α) (w : World)
  | fatal (f : Fatal) (w : World)
  | outOfFuel
  deriving DecidableEq

/-- Sequencing: the second operation runs only if the first returns. -/
def Res.andThen {α β : Type} (r : Res α) (f : α → World → Res β) : Res β :=
  match r with
  | .ok a w => f a w
  | .fatal e w => .fatal e w
  | .outOfFuel => .outOfFuel

/-- Function `ipcSendCmd`: one `Write` of the command and a newline. -/
def ipcSendCmd (cmd : GoString) (w : World) : Res Unit :=
  let cmdByte := cmd ++ ['\n']
  let w1 := { w with written := w.written ++ [cmdByte], writeResults := w.writeResults.tail }
  match w.writeResults.head? with
  | some .failed => .fatal (.unexpectedError .write) w1
  | some .short => .fatal (.lengthTooLong cmd) w1
  | _ => .ok () w1

/-- Function `ipcReceiveMsg`: the bytes read until a read fails. -/
def ipcReceiveMsg (w : World) : Res GoString :=
  let w1 := { w with incoming := w.incoming.tail }
  match w.incoming.head? with
  | some .deadlineError => .fatal (.unexpectedError .setReadDeadline) w1
  | some (.reads chunks) => .ok chunks.flatten w1
  | none => .ok [] w1

/-- The request `{ "command": ["get_property", "%s"] }`. -/
def getPropertyRequest (propertyName : GoString) : GoString :=
  "\x7b \"command\": [\"get_property\", \"".toList ++ propertyName ++ "\"] \x7d".toList

/-- Function `mpvGetProperty`. -/
def mpvGetProperty (fuel : Nat) (propertyName : GoString) (w : World) : Res JSON :=
  (ipcSendCmd (getPropertyRequest propertyName) w).andThen fun _ w1 =>
  (ipcReceiveMsg w1).andThen fun raw w2 =>
  match decodeLoop fuel (NewDecoder raw) mpvCommandResult.zero with
  | none => .outOfFuel
  | some (ok, res) =>
    if !ok then .fatal (.couldntGetProperty propertyName) w2
    else .ok res.Data w2

/-! ## Commands -/

/-- Type `addCmdMode`. -/
inductive addCmdMode
  | appendACM
  | replaceACM
  deriving DecidableEq

/-- The string of an `addCmdMode`. -/
def addCmdMode.str : addCmdMode → GoString
  | .appendACM => "append".toList
  | .replaceACM => "replace".toList

/-- The request `addCmd` sends for one argument. -/
def addRequest (isPrint : Char → Bool) (mode : addCmdMode) (fpath : GoString) : GoString :=
  if filepathExt fpath = [] then
    "loadlist ".toList ++ strconvQuote isPrint fpath ++ [' '] ++ mode.str
  else
    "loadfile ".toList ++ strconvQuote isPrint fpath ++ [' '] ++ mode.str

/-- The loop `for _, fpath := range args` of `addCmd`. -/
def addCmdLoop (isPrint : Char → Bool) (mode : addCmdMode) : List GoString → World → Res Unit
  | [], w => .ok () w
  | fpath :: rest, w =>
    (ipcSendCmd (addRequest isPrint mode fpath) w).andThen fun _ w1 =>
    addCmdLoop isPrint mode rest w1

/-- Function `addCmd`. -/
def addCmd (isPrint : Char → Bool) (mode : addCmdMode) (args : List GoString) (w : World) :
    Res Unit :=
  if args.length = 0 then .fatal .usage w
  else addCmdLoop isPrint mode args w

/-- Function `pauseCmd`. -/
def pauseCmd (w : World) : Res Unit := ipcSendCmd "cycle pause".toList w

/-- Function `nextCmd`. -/
def nextCmd (w : World) : Res Unit := ipcSendCmd "playlist-next".toList w

/-- Function `prevCmd`. -/
def prevCmd (w : World) : Res Unit := ipcSendCmd "playlist-prev".toList w

/-- Function `loopCmd`. -/
def loopCmd (w : World) : Res Unit := ipcSendCmd "cycle-values loop-file \x27inf\x27 \x27no\x27".toList w

/-- `fmt.Println`. -/
def println (line : GoString) (w : World) : Res Unit :=
  .ok () { w with stdout := w.stdout ++ [line] }

/-- Function `customCmd`. -/
def customCmd (args : List GoString) (w : World) : Res Unit :=
  match args with
  | [] => .fatal .usage w
  | arg0 :: _ =>
    (ipcSendCmd arg0 w).andThen fun _ w1 =>
    (ipcReceiveMsg w1).andThen fun raw w2 => println raw w2

/-- The struct `playlistEntry`. -/
structure playlistEntry where
  /-- Field `Current bool`, tag `json:"current"`. -/
  Current : Bool
  /-- Field `Filename string`, tag `json:"filename"`. -/
  Filename : GoString
  deriving DecidableEq

/-- Order of Go strings (`<`), byte-wise, which on valid UTF-8 is the order of
the code points. -/
def strLt : GoString → GoString → Bool
  | [], [] => false
  | [], _ :: _ => true
  | _ :: _, [] => false
  | a :: as, b :: bs => decide (a.toNat < b.toNat) || (a == b && strLt as bs)

/-- Assignment `m[k] = v` on a map kept as its members in key order, the order
in which `json.Marshal` writes them. -/
def mapInsert : List (GoString × JSON) → GoString → JSON → List (GoString × JSON)
  | [], k, v => [(k, v)]
  | (k1, v1) :: rest, k, v =>
    if k = k1 then (k, v) :: rest
    else if strLt k k1 then (k, v) :: (k1, v1) :: rest
    else (k1, v1) :: mapInsert rest k v

/-- The `map[string]any` an object was decoded to: a later member replaces an
earlier one with the same key. -/
def toMap (kvs : List (GoString × JSON)) : List (GoString × JSON) :=
  kvs.foldl (fun m kv => mapInsert m kv.1 kv.2) []

/-- One member of a JSON object decoded into a `playlistEntry`; the flag is
set when an `UnmarshalTypeError` is saved. -/
def storeEntryField (acc : playlistEntry × Bool) (kv : GoString × JSON) :
    playlistEntry × Bool :=
  if keyMatches kv.1 "current".toList then
    match kv.2 with
    | .bool b => ({ acc.1 with Current := b }, acc.2)
    | .null => acc
    | _ => (acc.1, true)
  else if keyMatches kv.1 "filename".toList then
    match kv.2 with
    | .str s => ({ acc.1 with Filename := s }, acc.2)
    | .null => acc
    | _ => (acc.1, true)
  else acc

/-- One element of the property value, marshalled and unmarshalled into a
`playlistEntry`. -/
def unmarshalEntry (v : JSON) : playlistEntry × Bool :=
  match v with
  | .obj kvs => (toMap kvs).foldl storeEntryField ({ Current := false, Filename := [] }, false)
  | .null => ({ Current := false, Filename := [] }, false)
  | _ => ({ Current := false, Filename := [] }, true)

/-- `json.Marshal(v)` on a decoded property value: the value written back as
JSON, objects with their keys in order (the order is applied where an object
is read back, in `unmarshalEntry`).  It fails (`none`) on a `float64` that is
not finite, which here is a number whose literal is out of range. -/
def jsonMarshal (v : JSON) : Option JSON :=
  if v.rangeErr then none else some v

/-- `json.Unmarshal(rawPlaylistData, &playlistData)` on what `json.Marshal`
wrote: an error (`none`) unless that JSON is `null`, which leaves the slice
`nil`, or an array whose elements all decode into entries. -/
def unmarshalPlaylist (v : JSON) : Option (List playlistEntry) :=
  match v with
  | .null => some []
  | .arr xs =>
    let es := xs.map unmarshalEntry
    if es.any (fun e => e.2) then none else some (es.map (fun e => e.1))
  | _ => none

/-- The assignment `r[0] = '>'` on `r := []rune(toPrint)`; `none` is the
panic on an empty slice. -/
def markCurrent : GoString → Option GoString
  | [] => none
  | _ :: r => some ('>' :: r)

/-- The text `fmt.Sprintf("%*d\t%v", padding, i, filepath.Base(v.Filename))`. -/
def playlistLine (padding : Nat) (i : Nat) (v : playlistEntry) : GoString :=
  fmtStarD padding i ++ ['\t'] ++ filepathBase v.Filename

/-- The loop `for i, v := range playlistData` of the listing, from index `i`. -/
def printPlaylist (padding : Nat) : Nat → List playlistEntry → World → Res Unit
  | _, [], w => .ok () w
  | i, v :: rest, w =>
    let toPrint := playlistLine padding i v
    if v.Current then
      match markCurrent toPrint with
      | none => .fatal .panic w
      | some marked => (println marked w).andThen fun _ w1 => printPlaylist padding (i + 1) rest w1
    else (println toPrint w).andThen fun _ w1 => printPlaylist padding (i + 1) rest w1

/-- The loop of `playlist raw`. -/
def printRaw : List playlistEntry → World → Res Unit
  | [], w => .ok () w
  | v :: rest, w => (println v.Filename w).andThen fun _ w1 => printRaw rest w1

/-- Function `playlistCmd`. -/
def playlistCmd (fuel : Nat) (args : List GoString) (w : World) : Res Unit :=
  (mpvGetProperty fuel "playlist".toList w).andThen fun v w1 =>
  match jsonMarshal v with
  | none => .fatal (.unexpectedError .marshal) w1
  | some rawPlaylistData =>
    match unmarshalPlaylist rawPlaylistData with
    | none => .fatal (.unexpectedError .unmarshal) w1
    | some playlistData =>
      match args with
      | [] => printPlaylist (numDigits playlistData.length + 2) 0 playlistData w1
      | arg0 :: _ =>
        if arg0 = "raw".toList then printRaw playlistData w1
        else
          match strconvAtoi arg0 with
          | none => .fatal (.unexpectedError .atoi) w1
          | some pos =>
            if pos < 0 ∨ pos ≥ playlistData.length then
              .fatal (.incorrectPlaylistPosition pos) w1
            else ipcSendCmd ("playlist-play-index ".toList ++ fmtD pos) w1

/-- Function `playCmd`. -/
def playCmd (isPrint : Char → Bool) (fuel : Nat) (args : List GoString) (w : World) :
    Res Unit :=
  (if args.length = 0 then playlistCmd fuel ["0".toList] w
   else addCmd isPrint .replaceACM args w).andThen fun _ w1 =>
  (mpvGetProperty fuel "pause".toList w1).andThen fun v w2 =>
  match v with
  | .bool paused => if paused then pauseCmd w2 else .ok () w2
  | _ => .fatal .panic w2

/-! ## The instance locator and the channel connector -/

/-- What `os.ReadFile(path)` returns. -/
inductive ReadOutcome
  /-- The content, `err == nil`. -/
  | data (content : GoString)
  /-- An error with `errors.Is(err, os.ErrNotExist)`. -/
  | notExist
  /-- Any other error. -/
  | otherError
  deriving DecidableEq

/-- Result of an operation outside the channel: a value or a fatal end. -/
inductive Outcome (α : Type)
  | ok (a : α)
  | fatal (f : Fatal)
  deriving DecidableEq

/-- Function `mpvIsRunning`; `readFile` is the file system as `os.ReadFile`
sees it. -/
def mpvIsRunning (readFile : GoString → ReadOutcome) (pidPath : GoString) : Outcome Bool :=
  match readFile pidPath with
  | .otherError => .fatal (.couldntReadFile pidPath)
  | .notExist => .ok false
  | .data data =>
    let procCommPath := filepathJoin ["/proc".toList, data, "comm".toList]
    match readFile procCommPath with
    | .otherError => .fatal (.couldntReadFile procCommPath)
    | .notExist => .ok false
    | .data procName => .ok (stringsContains procName "mpv".toList)

/-- The constant `programDirPath`. -/
def programDirPath : GoString := "/tmp/mpv-mp".toList

/-- The machine outside the channel: files, processes, and what the system
calls of the program will return. -/
structure Sys where
  /-- The files, as `os.ReadFile` sees them. -/
  readFile : GoString → ReadOutcome
  /-- Call `os.WriteFile` on the path fails. -/
  writeFails : GoString → Bool
  /-- Call `cmd.Start()` on the command line: the new process identifier, or
  `none` for an error. -/
  start : List GoString → Option Int
  /-- Call `syscall.Kill(pid, SIGKILL)` fails. -/
  killFails : Int → Bool
  /-- Call `os.RemoveAll(programDirPath)` fails. -/
  removeAllFails : Bool
  /-- Processes sent `SIGKILL` so far. -/
  killed : List Int

/-- Result of an operation on the machine. -/
inductive SysRes (α : Type)
  | ok (a : α) (s : Sys)
  | fatal (f : Fatal) (s : Sys)

/-- The command line of the background instance. -/
def mpvCommandLine (ipcPath : GoString) : List GoString :=
  ["mpv".toList, "--no-video".toList, "--no-terminal".toList, "--idle".toList,
   "--loop-playlist".toList, "--input-ipc-server=".toList ++ ipcPath]

/-- Function `mpvStart`. -/
def mpvStart (pidPath ipcPath : GoString) (s : Sys) : SysRes Unit :=
  match s.start (mpvCommandLine ipcPath) with
  | none => .fatal (.unexpectedError .start) s
  | some pid =>
    let data := strconvItoa pid
    let written := fun path => if path = pidPath then ReadOutcome.data data else s.readFile path
    if s.writeFails pidPath then .fatal (.unexpectedError .writeFile) s
    else .ok () { s with readFile := written }

/-- Function `killCmd`. -/
def killCmd (pidPath : GoString) (s : Sys) : SysRes Unit :=
  match s.readFile pidPath with
  | .otherError => .fatal (.couldntReadFile pidPath) s
  | r =>
    let data := match r with
      | .data d => d
      | _ => []
    match strconvAtoi data with
    | none => .fatal (.unexpectedError .atoi) s
    | some pid =>
      if s.killFails pid then .fatal (.unexpectedError .kill) s
      else
        let s1 := { s with killed := s.killed ++ [pid] }
        let removed := fun path =>
          if hasPrefix path (programDirPath ++ ['/']) then ReadOutcome.notExist
          else s.readFile path
        if s1.removeAllFails then .fatal (.unexpectedError .removeAll) s1
        else .ok () { s1 with readFile := removed }

/-- What `os.Stat(ipcPath)` returns. -/
inductive StatOutcome
  /-- The path exists, `err == nil`. -/
  | found
  /-- An error with `errors.Is(err, os.ErrNotExist)`. -/
  | notExist
  /-- Any other error. -/
  | otherError
  deriving DecidableEq

/-- The constant `maxCheckTimes`. -/
def maxCheckTimes : Nat := 10

/-- The loop of `mpvConnectIPC`,
`for ; err != nil && i < maxCheckTimes; _, err = os.Stat(ipcPath) { ...; i++ }`,
from the state `i`, `err`.  `stat k` is what the call number `k` of `os.Stat`
returns, the call before the loop being number 0; the call in the post
statement after `i++` is thus number `i`.  The result is the state after the
loop, a fatal end, or `none` when the fuel is used up. -/
def pollLoop (stat : Nat → StatOutcome) (ipcPath : GoString) :
    Nat → Nat → StatOutcome → Option (Outcome (Nat × StatOutcome))
  | 0, _, _ => none
  | fuel + 1, i, err =>
    if err ≠ .found ∧ i < maxCheckTimes then
      if err ≠ .notExist then some (.fatal (.couldntStat ipcPath))
      else pollLoop stat ipcPath fuel (i + 1) (stat (i + 1))
    else some (.ok (i, err))

/-- Function `mpvConnectIPC`.  The value returned stands for the connection
and records how many times the function slept 100 ms before `net.Dial`. -/
def mpvConnectIPC (stat : Nat → StatOutcome) (dialFails : Bool) (ipcPath : GoString) :
    Option (Outcome Nat) :=
  match pollLoop stat ipcPath (maxCheckTimes + 1) 0 (stat 0) with
  | none => none
  | some (.fatal f) => some (.fatal f)
  | some (.ok (i, err)) =>
    if i ≥ maxCheckTimes ∨ err ≠ .found then some (.fatal (.couldntGetIPC ipcPath))
    else if dialFails then some (.fatal (.unexpectedError .dial))
    else some (.ok i)

/-! ## Example states -/

/-- A fresh connection on which nothing has been written, every write will be
complete, and the coming drains return the given buffers. -/
def freshWorld (buffers : List GoString) : World :=
  { written := [], writeResults := [], incoming := buffers.map (fun b => Drain.reads [b]),
    stdout := [] }

/-- An example file system: the handle file holds `4321` and
process 4321 is called `mpv`. -/
def exampleFiles (path : GoString) : ReadOutcome :=
  if path = "/tmp/mpv-mp/pid".toList then .data "4321".toList
  else if path = "/proc/4321/comm".toList then .data "mpv\n".toList
  else .notExist

/-- An example machine: `cmd.Start()` returns process 4321 and
no system call fails. -/
def exampleSys : Sys :=
  { readFile := fun _ => .notExist, writeFails := fun _ => false, start := fun _ => some 4321,
    killFails := fun _ => false, removeAllFails := false, killed := [] }

/-- The reply to the `playlist` query used in the examples: three entries,
the second one current. -/
def examplePlaylistReply : GoString :=
  ("\x7b\"data\":[\x7b\"filename\":\"/music/a.mp3\",\"id\":1\x7d," ++
   "\x7b\"filename\":\"/music/b.mp3\",\"current\":true,\"playing\":true,\"id\":2\x7d," ++
   "\x7b\"filename\":\"/music/c.mp3\",\"id\":3\x7d]," ++
   "\"request_id\":0,\"error\":\"success\"\x7d\n").toList

/-- The entries of `examplePlaylistReply`. -/
def examplePlaylist : List playlistEntry :=
  [⟨false, "/music/a.mp3".toList⟩, ⟨true, "/music/b.mp3".toList⟩, ⟨false, "/music/c.mp3".toList⟩]

/-! ## Lemmas on `strconv` -/

theorem toDigitsCore_acc (f : Nat) : ∀ (n : Nat) (acc : List Char),
    Nat.toDigitsCore 10 f n acc = Nat.toDigitsCore 10 f n [] ++ acc := by
  induction f with
  | zero => intro n acc; simp [Nat.toDigitsCore]
  | succ f ih =>
    intro n acc
    simp only [Nat.toDigitsCore]
    split
    · simp
    · rw [ih (n / 10) (Nat.digitChar (n % 10) :: acc), ih (n / 10) [Nat.digitChar (n % 10)]]
      simp

theorem toDigitsCore_fuel (f : Nat) : ∀ (g n : Nat), n < f → n < g →
    Nat.toDigitsCore 10 f n [] = Nat.toDigitsCore 10 g n [] := by
  induction f with
  | zero => intro g n h; omega
  | succ f ih =>
    intro g n hf hg
    obtain ⟨g, rfl⟩ : ∃ k, g = k + 1 := ⟨g - 1, by omega⟩
    simp only [Nat.toDigitsCore]
    split
    · rfl
    · rename_i h
      have h1 : n / 10 < f := by omega
      have h2 : n / 10 < g := by omega
      rw [toDigitsCore_acc f, toDigitsCore_acc g, ih g (n / 10) h1 h2]

theorem natToDec_eq (n : Nat) :
    natToDec n = if n < 10 then [Nat.digitChar n]
      else natToDec (n / 10) ++ [Nat.digitChar (n % 10)] := by
  by_cases h : n < 10
  · have h0 : n / 10 = 0 := by omega
    have h1 : n % 10 = n := by omega
    simp [natToDec, Nat.toDigits, Nat.toDigitsCore, h, h0, h1]
  · have h0 : ¬ n / 10 = 0 := by omega
    simp only [h, if_false]
    show Nat.toDigitsCore 10 (n + 1) n [] = Nat.toDigitsCore 10 (n / 10 + 1) (n / 10) [] ++ _
    rw [Nat.toDigitsCore]
    simp only [h0, if_false]
    rw [toDigitsCore_acc, toDigitsCore_fuel n (n / 10 + 1) (n / 10) (by omega) (by omega)]

theorem digitChar_isDecDigit : ∀ k, k < 10 → isDecDigit (Nat.digitChar k) = true := by decide

theorem digitChar_value : ∀ k, k < 10 → (Nat.digitChar k).toNat - '0'.toNat = k := by decide

theorem natToDec_ne_nil (n : Nat) : natToDec n ≠ [] := by
  rw [natToDec_eq]; split <;> simp

theorem natToDec_isDecDigit (n : Nat) : ∀ c ∈ natToDec n, isDecDigit c = true := by
  induction n using Nat.strong_induction_on with
  | _ n ih =>
    rw [natToDec_eq]
    split
    · rename_i h; intro c hc; simp at hc; subst hc; exact digitChar_isDecDigit n h
    · rename_i h; intro c hc
      simp only [List.mem_append, List.mem_singleton] at hc
      rcases hc with hc | hc
      · exact ih (n / 10) (by omega) c hc
      · subst hc; exact digitChar_isDecDigit _ (by omega)

theorem decValue_append (s : GoString) (c : Char) :
    decValue (s ++ [c]) = decValue s * 10 + (c.toNat - '0'.toNat) := by
  simp [decValue, List.foldl_append]

theorem decValue_natToDec (n : Nat) : decValue (natToDec n) = n := by
  induction n using Nat.strong_induction_on with
  | _ n ih =>
    rw [natToDec_eq]
    split
    · rename_i h
      have := digitChar_value n h
      simpa [decValue] using this
    · rename_i h
      rw [decValue_append, ih (n / 10) (by omega), digitChar_value _ (by omega)]
      omega

theorem natToDec_length_mono : ∀ (n i : Nat), i ≤ n → (natToDec i).length ≤ (natToDec n).length := by
  intro n
  induction n using Nat.strong_induction_on with
  | _ n ih =>
    intro i hi
    rw [natToDec_eq i, natToDec_eq n]
    by_cases hn : n < 10
    · have : i < 10 := by omega
      simp [hn, this]
    · by_cases h2 : i < 10
      · simp [hn, h2]
      · simp only [hn, h2, if_false, List.length_append, List.length_singleton]
        have := ih (n / 10) (by omega) (i / 10) (by omega)
        omega

theorem isDecDigit_ne_sign (c : Char) (h : isDecDigit c = true) : c ≠ '-' ∧ c ≠ '+' := by
  constructor <;> (rintro rfl; revert h; decide)

theorem strconvAtoi_digits (ds : GoString) (hne : ds ≠ []) (hd : ∀ c ∈ ds, isDecDigit c = true)
    (hr : decValue ds < 2 ^ 63) : strconvAtoi ds = some (decValue ds : Int) := by
  cases ds with
  | nil => exact absurd rfl hne
  | cons c cs =>
    have hc := isDecDigit_ne_sign c (hd c (List.mem_cons_self _ _))
    have hall : (c :: cs).all isDecDigit = true := by
      rw [List.all_eq_true]; exact hd
    unfold strconvAtoi
    split
    · rename_i heq; exact absurd heq (by simp)
    · rename_i heq; exact absurd (List.cons.inj heq).1 hc.1
    · rename_i heq; exact absurd (List.cons.inj heq).1 hc.2
    · simp only [hall, hne, if_false, Bool.not_true]
      simpa using hr

theorem strconvAtoi_neg (ds : GoString) (hne : ds ≠ []) (hd : ∀ c ∈ ds, isDecDigit c = true)
    (hr : decValue ds ≤ 2 ^ 63) : strconvAtoi ('-' :: ds) = some (-(decValue ds : Int)) := by
  have hall : ds.all isDecDigit = true := by
    rw [List.all_eq_true]; exact hd
  simp only [strconvAtoi, hall, hne, if_false, Bool.not_true]
  simpa using hr

theorem strconvAtoi_strconvItoa (p : Int) (hlo : minInt ≤ p) (hhi : p ≤ maxInt) :
    strconvAtoi (strconvItoa p) = some p := by
  unfold minInt at hlo
  unfold maxInt at hhi
  unfold strconvItoa
  split
  · rename_i h
    rw [strconvAtoi_neg _ (natToDec_ne_nil _) (natToDec_isDecDigit _)
      (by rw [decValue_natToDec]; omega), decValue_natToDec]
    congr 1; omega
  · rename_i h
    rw [strconvAtoi_digits _ (natToDec_ne_nil _) (natToDec_isDecDigit _)
      (by rw [decValue_natToDec]; omega), decValue_natToDec]
    congr 1; omega

theorem strconvItoa_chars (p : Int) : ∀ c ∈ strconvItoa p, c = '-' ∨ isDecDigit c = true := by
  intro c hc
  unfold strconvItoa at hc
  split at hc
  · rcases List.mem_cons.mp hc with h | h
    · exact Or.inl h
    · exact Or.inr (natToDec_isDecDigit _ c h)
  · exact Or.inr (natToDec_isDecDigit _ c hc)

theorem strconvItoa_ne_nil (p : Int) : strconvItoa p ≠ [] := by
  unfold strconvItoa
  split
  · simp
  · exact natToDec_ne_nil _

/-! ## Lemmas on `path/filepath` and `strings` -/

theorem splitSlash_append (c : GoString) (h : '/' ∉ c) (rest : GoString) :
    splitSlash (c ++ '/' :: rest) = c :: splitSlash rest := by
  induction c with
  | nil => simp [splitSlash]
  | cons x xs ih =>
    have hx : x ≠ '/' := fun e => h (e ▸ List.mem_cons_self _ _)
    have hxs : '/' ∉ xs := fun e => h (List.mem_cons_of_mem _ e)
    simp [splitSlash, hx, ih hxs]

theorem splitSlash_of_not_mem (c : GoString) (h : '/' ∉ c) : splitSlash c = [c] := by
  induction c with
  | nil => simp [splitSlash]
  | cons x xs ih =>
    have hx : x ≠ '/' := fun e => h (e ▸ List.mem_cons_self _ _)
    have hxs : '/' ∉ xs := fun e => h (List.mem_cons_of_mem _ e)
    simp [splitSlash, hx, ih hxs]

theorem filepathClean_three (a c b : GoString) (ha : cleanElem a) (hc : cleanElem c)
    (hb : cleanElem b) :
    filepathClean ('/' :: (a ++ '/' :: (c ++ '/' :: b))) = '/' :: (a ++ '/' :: (c ++ '/' :: b)) := by
  have hsplit : splitSlash (a ++ '/' :: (c ++ '/' :: b)) = [a, c, b] := by
    rw [splitSlash_append _ ha.2.1, splitSlash_append _ hc.2.1, splitSlash_of_not_mem _ hb.2.1]
  simp [filepathClean, splitSlash, hsplit, List.foldl, cleanStep, ha.1, ha.2.2.1, ha.2.2.2, hb.1,
    hb.2.2.1, hb.2.2.2, hc.1, hc.2.2.1, hc.2.2.2, isPathSeparator, List.intercalate]

/-- For a process identifier text `c` that is one clean path element,
`filepath.Join("/proc", c, "comm")` is `/proc/c/comm`. -/
theorem filepathJoin_proc_comm (c : GoString) (hc : cleanElem c) :
    filepathJoin ["/proc".toList, c, "comm".toList] = "/proc/".toList ++ c ++ "/comm".toList := by
  have hjoin : List.intercalate ['/'] ["/proc".toList, c, "comm".toList]
      = '/' :: (['p', 'r', 'o', 'c'] ++ '/' :: (c ++ '/' :: ['c', 'o', 'm', 'm'])) := by
    simp [List.intercalate]
  have hne2 : "/proc".toList ≠ [] := by decide
  have hr : "/proc/".toList ++ c ++ "/comm".toList
      = '/' :: (['p', 'r', 'o', 'c'] ++ '/' :: (c ++ '/' :: ['c', 'o', 'm', 'm'])) := by
    simp
  rw [filepathJoin, if_neg hne2, hjoin, hr]
  exact filepathClean_three _ c _ (by unfold cleanElem; decide) hc (by unfold cleanElem; decide)

theorem cleanElem_strconvItoa (p : Int) : cleanElem (strconvItoa p) := by
  have h := strconvItoa_chars p
  refine ⟨strconvItoa_ne_nil p, ?_, ?_, ?_⟩
  · intro hm
    rcases h _ hm with h1 | h1
    · exact absurd h1 (by decide)
    · exact absurd h1 (by decide)
  · intro e
    have hm : '.' ∈ strconvItoa p := by rw [e]; simp
    rcases h _ hm with h1 | h1
    · exact absurd h1 (by decide)
    · exact absurd h1 (by decide)
  · intro e
    have hm : '.' ∈ strconvItoa p := by rw [e]; simp
    rcases h _ hm with h1 | h1
    · exact absurd h1 (by decide)
    · exact absurd h1 (by decide)

theorem hasPrefix_iff (s p : GoString) : hasPrefix s p = true ↔ p <+: s := by
  induction p generalizing s with
  | nil => cases s <;> simp [hasPrefix]
  | cons x xs ih =>
    cases s with
    | nil => simp [hasPrefix]
    | cons c cs =>
      simp only [hasPrefix, Bool.and_eq_true, beq_iff_eq, ih, List.cons_prefix_cons]
      constructor
      · rintro ⟨h1, h2⟩; exact ⟨h1.symm, h2⟩
      · rintro ⟨h1, h2⟩; exact ⟨h1.symm, h2⟩

theorem stringsContains_iff (s sub : GoString) : stringsContains s sub = true ↔ sub <:+: s := by
  induction s with
  | nil =>
    simp only [stringsContains, hasPrefix_iff]
    constructor
    · intro h; exact h.isInfix
    · intro h; rw [List.infix_nil] at h; subst h; exact List.nil_prefix
  | cons c cs ih =>
    simp only [stringsContains, Bool.or_eq_true, hasPrefix_iff, ih, List.infix_cons_iff]


/-! ## The instance locator -/

theorem mpvIsRunning_of_data (readFile : GoString → ReadOutcome) (pidPath c : GoString)
    (h : readFile pidPath = .data c) :
    mpvIsRunning readFile pidPath =
      match readFile (filepathJoin ["/proc".toList, c, "comm".toList]) with
      | .otherError => .fatal (.couldntReadFile (filepathJoin ["/proc".toList, c, "comm".toList]))
      | .notExist => .ok false
      | .data procName => .ok (stringsContains procName "mpv".toList) := by
  simp only [mpvIsRunning, h]

/-- C3: when every read either succeeds or fails with "does not exist",
`mpvIsRunning` returns, and it returns true exactly when the handle file has
some content `c`, the file `filepath.Join("/proc", c, "comm")` can be read, and
its content contains `mpv`.  In particular it returns false when the handle
file is absent, when the process file is absent whatever the handle file
holds, and when the process name does not contain `mpv`.  For a content `c`
that is one clean path element the path probed is `/proc/c/comm`. -/
theorem C3_mpvIsRunning_iff (readFile : GoString → ReadOutcome) (pidPath : GoString)
    (hread : ∀ path, readFile path ≠ .otherError) :
    (∃ b, mpvIsRunning readFile pidPath = .ok b ∧
      (b = true ↔ ∃ c procName, readFile pidPath = .data c ∧
        readFile (filepathJoin ["/proc".toList, c, "comm".toList]) = .data procName ∧
        "mpv".toList <:+: procName)) ∧
    (readFile pidPath = .notExist → mpvIsRunning readFile pidPath = .ok false) ∧
    (∀ c, readFile pidPath = .data c →
      readFile (filepathJoin ["/proc".toList, c, "comm".toList]) = .notExist →
      mpvIsRunning readFile pidPath = .ok false) ∧
    (∀ c procName, readFile pidPath = .data c →
      readFile (filepathJoin ["/proc".toList, c, "comm".toList]) = .data procName →
      ¬ "mpv".toList <:+: procName → mpvIsRunning readFile pidPath = .ok false) ∧
    (∀ c, cleanElem c →
      filepathJoin ["/proc".toList, c, "comm".toList] = "/proc/".toList ++ c ++ "/comm".toList) := by
  refine ⟨?_, ?_, ?_, ?_, fun c hc => filepathJoin_proc_comm c hc⟩
  · cases h1 : readFile pidPath with
    | otherError => exact absurd h1 (hread _)
    | notExist =>
      refine ⟨false, by simp [mpvIsRunning, h1], ?_⟩
      simp
    | data c =>
      rw [mpvIsRunning_of_data readFile pidPath c h1]
      cases h2 : readFile (filepathJoin ["/proc".toList, c, "comm".toList]) with
      | otherError => exact absurd h2 (hread _)
      | notExist =>
        refine ⟨false, rfl, ?_⟩
        constructor
        · intro h; cases h
        · rintro ⟨c1, n1, hc1, hn1, _⟩
          cases hc1
          rw [h2] at hn1; cases hn1
      | data procName =>
        refine ⟨stringsContains procName "mpv".toList, rfl, ?_⟩
        rw [stringsContains_iff]
        constructor
        · intro h; exact ⟨c, procName, rfl, h2, h⟩
        · rintro ⟨c1, n1, hc1, hn1, hin⟩
          cases hc1
          rw [h2] at hn1; cases hn1
          exact hin
  · intro h; simp [mpvIsRunning, h]
  · intro c h1 h2
    rw [mpvIsRunning_of_data readFile pidPath c h1, h2]
  · intro c procName h1 h2 h3
    rw [mpvIsRunning_of_data readFile pidPath c h1, h2]
    have : stringsContains procName "mpv".toList = false := by
      rw [← Bool.not_eq_true, stringsContains_iff]; exact h3
    show Outcome.ok (stringsContains procName "mpv".toList) = .ok false
    rw [this]

theorem exampleFiles_readable : ∀ path, exampleFiles path ≠ .otherError := by
  intro path
  unfold exampleFiles
  split
  · simp
  · split <;> simp

/-- Witness of C3 on a file system with a running instance. -/
theorem C3_mpvIsRunning_iff_witness :
    (∀ path, exampleFiles path ≠ .otherError) ∧
    mpvIsRunning exampleFiles "/tmp/mpv-mp/pid".toList = .ok true ∧
    (∃ b, mpvIsRunning exampleFiles "/tmp/mpv-mp/pid".toList = .ok b ∧
      (b = true ↔ ∃ c procName, exampleFiles "/tmp/mpv-mp/pid".toList = .data c ∧
        exampleFiles (filepathJoin ["/proc".toList, c, "comm".toList]) = .data procName ∧
        "mpv".toList <:+: procName)) :=
  ⟨exampleFiles_readable, by decide,
    (C3_mpvIsRunning_iff exampleFiles "/tmp/mpv-mp/pid".toList exampleFiles_readable).1⟩


theorem killCmd_of_data (pidPath : GoString) (s : Sys) (p : Int)
    (hread : s.readFile pidPath = .data (strconvItoa p)) (hlo : minInt ≤ p) (hhi : p ≤ maxInt)
    (hkill : s.killFails p = false) (hrm : s.removeAllFails = false) :
    ∃ s2, killCmd pidPath s = .ok () s2 ∧ s2.killed = s.killed ++ [p] := by
  simp [killCmd, hread, strconvAtoi_strconvItoa p hlo hhi, hkill, hrm]

/-- C9: round trip of the process handle.  For a process identifier `p` in
the range of `int` that `cmd.Start()` returns, `mpvStart` leaves the handle
file with exactly the text `strconv.Itoa(p)`, without a newline; that text
parses back with `strconv.Atoi` to `p`, so that `killCmd` signals process `p`;
and `mpvIsRunning` on that handle file probes the path `/proc/<p>/comm`. -/
theorem C9_handle_round_trip (p : Int) (hlo : minInt ≤ p) (hhi : p ≤ maxInt)
    (s : Sys) (pidPath ipcPath : GoString)
    (hstart : s.start (mpvCommandLine ipcPath) = some p)
    (hwrite : s.writeFails pidPath = false) :
    (∃ s1, mpvStart pidPath ipcPath s = .ok () s1 ∧
      s1.readFile pidPath = .data (strconvItoa p) ∧
      (s.killFails p = false → s.removeAllFails = false →
        ∃ s2, killCmd pidPath s1 = .ok () s2 ∧ s2.killed = s.killed ++ [p]) ∧
      mpvIsRunning s1.readFile pidPath =
        match s1.readFile ("/proc/".toList ++ strconvItoa p ++ "/comm".toList) with
        | .otherError =>
          .fatal (.couldntReadFile ("/proc/".toList ++ strconvItoa p ++ "/comm".toList))
        | .notExist => .ok false
        | .data procName => .ok (stringsContains procName "mpv".toList)) ∧
    strconvAtoi (strconvItoa p) = some p ∧
    filepathJoin ["/proc".toList, strconvItoa p, "comm".toList]
      = "/proc/".toList ++ strconvItoa p ++ "/comm".toList := by
  have hjoin := filepathJoin_proc_comm (strconvItoa p) (cleanElem_strconvItoa p)
  refine ⟨?_, strconvAtoi_strconvItoa p hlo hhi, hjoin⟩
  refine ⟨{ s with readFile := fun path =>
      if path = pidPath then ReadOutcome.data (strconvItoa p) else s.readFile path }, ?_, ?_, ?_, ?_⟩
  · simp [mpvStart, hstart, hwrite]
  · simp
  · intro hk hr
    exact killCmd_of_data pidPath _ p (by simp) hlo hhi hk hr
  · rw [mpvIsRunning_of_data _ pidPath (strconvItoa p) (by simp), hjoin]

/-- Witness of C9 at process identifier 4321. -/
theorem C9_handle_round_trip_witness :
    minInt ≤ 4321 ∧ (4321 : Int) ≤ maxInt ∧
    (∃ s1, mpvStart "/tmp/mpv-mp/pid".toList "/tmp/mpv-mp/ipc".toList exampleSys = .ok () s1 ∧
      s1.readFile "/tmp/mpv-mp/pid".toList = .data "4321".toList ∧
      ∃ s2, killCmd "/tmp/mpv-mp/pid".toList s1 = .ok () s2 ∧ s2.killed = [4321]) ∧
    strconvAtoi "4321".toList = some 4321 ∧
    filepathJoin ["/proc".toList, "4321".toList, "comm".toList] = "/proc/4321/comm".toList := by
  have h := C9_handle_round_trip 4321 (by decide) (by decide) exampleSys "/tmp/mpv-mp/pid".toList
    "/tmp/mpv-mp/ipc".toList rfl rfl
  have e : strconvItoa 4321 = "4321".toList := by decide
  rw [e] at h
  obtain ⟨⟨s1, h1, h2, h3, -⟩, h4, h5⟩ := h
  exact ⟨by decide, by decide, ⟨s1, h1, h2, h3 rfl rfl⟩, h4, h5.trans (by decide)⟩

/-! ## The channel connector -/

theorem pollLoop_found (stat : Nat → StatOutcome) (ipcPath : GoString) (k : Nat)
    (hfound : stat k = .found) (hbefore : ∀ j, j < k → stat j = .notExist)
    (hk : k < maxCheckTimes) :
    ∀ fuel i, i ≤ k → k - i < fuel →
      pollLoop stat ipcPath fuel i (stat i) = some (.ok (k, .found)) := by
  intro fuel
  induction fuel with
  | zero => intro i _ h; omega
  | succ fuel ih =>
    intro i hik hfuel
    rcases Nat.lt_or_ge i k with hlt | hge
    · have hi : stat i = .notExist := hbefore i hlt
      have him : i < maxCheckTimes := by omega
      simp only [pollLoop, hi]
      simp only [him, ne_eq, not_true_eq_false, if_false, and_true]
      simp only [reduceCtorEq, not_false_eq_true, if_true]
      exact ih (i + 1) (by omega) (by omega)
    · have hi : i = k := by omega
      subst hi
      simp [pollLoop, hfound]

/-- The positive half of the retry loop: when the first check that finds the
endpoint is the initial one or one of the first nine retries, the function
goes on to dial. -/
theorem mpvConnectIPC_found (stat : Nat → StatOutcome) (ipcPath : GoString) (k : Nat)
    (hfound : stat k = .found) (hbefore : ∀ j, j < k → stat j = .notExist)
    (hk : k < maxCheckTimes) :
    mpvConnectIPC stat false ipcPath = some (.ok k) := by
  have h := pollLoop_found stat ipcPath k hfound hbefore hk (maxCheckTimes + 1) 0 (by omega)
    (by omega)
  simp only [mpvConnectIPC, h]
  simp [Nat.not_le.mpr hk]

theorem pollLoop_exhausted (stat : Nat → StatOutcome) (ipcPath : GoString)
    (hbefore : ∀ j, j < maxCheckTimes → stat j = .notExist) :
    ∀ fuel i, i ≤ maxCheckTimes → maxCheckTimes - i < fuel →
      pollLoop stat ipcPath fuel i (stat i)
        = some (.ok (maxCheckTimes, stat maxCheckTimes)) := by
  intro fuel
  induction fuel with
  | zero => intro i _ h; omega
  | succ fuel ih =>
    intro i hik hfuel
    rcases Nat.lt_or_ge i maxCheckTimes with hlt | hge
    · have hi : stat i = .notExist := hbefore i hlt
      simp only [pollLoop, hi]
      simp only [hlt, ne_eq, not_true_eq_false, if_false, and_true]
      simp only [reduceCtorEq, not_false_eq_true, if_true]
      exact ih (i + 1) (by omega) (by omega)
    · have hi : i = maxCheckTimes := by omega
      subst hi
      simp [pollLoop]

/-- The loop of `mpvConnectIPC` ends within its fuel. -/
theorem pollLoop_total (stat : Nat → StatOutcome) (ipcPath : GoString) :
    ∀ fuel i err, maxCheckTimes - i < fuel → pollLoop stat ipcPath fuel i err ≠ none := by
  intro fuel
  induction fuel with
  | zero => intro i err h; omega
  | succ fuel ih =>
    intro i err hfuel
    rw [pollLoop]
    split
    · rename_i hc
      split
      · simp
      · exact ih (i + 1) _ (by omega)
    · simp

/-- Function `mpvConnectIPC` always ends. -/
theorem mpvConnectIPC_total (stat : Nat → StatOutcome) (dialFails : Bool) (ipcPath : GoString) :
    mpvConnectIPC stat dialFails ipcPath ≠ none := by
  have h := pollLoop_total stat ipcPath (maxCheckTimes + 1) 0 (stat 0) (by omega)
  unfold mpvConnectIPC
  split
  · rename_i h1; exact absurd h1 h
  · simp
  · split
    · simp
    · split <;> simp

/-- The defect behind C4 in general: when the initial check and the first nine
retries report "does not exist", the function gives up whatever the tenth
retry reports. -/
theorem mpvConnectIPC_exhausted (stat : Nat → StatOutcome) (dialFails : Bool)
    (ipcPath : GoString) (hbefore : ∀ j, j < maxCheckTimes → stat j = .notExist) :
    mpvConnectIPC stat dialFails ipcPath = some (.fatal (.couldntGetIPC ipcPath)) := by
  have h := pollLoop_exhausted stat ipcPath hbefore (maxCheckTimes + 1) 0 (by omega) (by omega)
  simp only [mpvConnectIPC, h]
  simp

/-- C4 (code defect): the endpoint is missing at the initial check and at the
first nine retries and is there at the tenth retry; `mpvConnectIPC` performs
that eleventh check, finds the path, and still ends with the
`couldn't get mpv ipc` error instead of dialing. -/
theorem C4_tenth_retry_discarded (dialFails : Bool) (ipcPath : GoString) :
    (fun k => if k < 10 then StatOutcome.notExist else .found) 10 = StatOutcome.found ∧
    mpvConnectIPC (fun k => if k < 10 then .notExist else .found) dialFails ipcPath
      = some (.fatal (.couldntGetIPC ipcPath)) := by
  refine ⟨rfl, ?_⟩
  apply mpvConnectIPC_exhausted
  intro j hj
  unfold maxCheckTimes at hj
  simp [hj]


/-! ## The protocol client -/

theorem ipcSendCmd_healthy (cmd : GoString) (w : World) (hw : w.writeResults = []) :
    ipcSendCmd cmd w = .ok () { w with written := w.written ++ [cmd ++ ['\n']] } := by
  cases w
  simp only at hw
  subst hw
  rfl

theorem decodeLoop_mono (n : Nat) : ∀ (m : Nat) (dec : Decoder) (res : mpvCommandResult)
    (r : Bool × mpvCommandResult), decodeLoop n dec res = some r → n ≤ m →
    decodeLoop m dec res = some r := by
  induction n with
  | zero => intro m dec res r h; simp [decodeLoop] at h
  | succ n ih =>
    intro m dec res r h hm
    obtain ⟨m, rfl⟩ : ∃ k, m = k + 1 := ⟨m - 1, by omega⟩
    rw [decodeLoop] at h ⊢
    split at h
    · exact h
    · exact h
    · exact ih m _ _ r h (by omega)

theorem decodeLoop_sticky (fuel : Nat) : ∀ (buf : GoString) (e : DecodeErr)
    (res : mpvCommandResult), e ≠ .eof → decodeLoop fuel { buf := buf, err := some e } res = none := by
  induction fuel with
  | zero => intro buf e res _; rfl
  | succ fuel ih =>
    intro buf e res he
    rw [decodeLoop]
    simp only [Decoder.Decode]
    cases e with
    | eof => exact absurd rfl he
    | unexpectedEOF => exact ih _ _ _ he
    | syntaxError => exact ih _ _ _ he
    | unmarshalType => exact ih _ _ _ he

/-- A buffer that ends inside a value, or holds a byte that cannot begin or
continue one, keeps the decode loop running for ever: the error is neither
`nil` nor `io.EOF`, and it is returned again by every later `Decode`. -/
theorem decodeLoop_diverges (buf : GoString) (res : mpvCommandResult)
    (h : readValue buf = .unexpectedEOF ∨ readValue buf = .syntaxError) :
    ∀ fuel, decodeLoop fuel (NewDecoder buf) res = none := by
  intro fuel
  cases fuel with
  | zero => rfl
  | succ fuel =>
    rw [decodeLoop]
    rcases h with h | h
    · simp only [Decoder.Decode, NewDecoder, h]
      exact decodeLoop_sticky fuel _ _ _ (by decide)
    · simp only [Decoder.Decode, NewDecoder, h]
      exact decodeLoop_sticky fuel _ _ _ (by decide)

theorem mpvGetProperty_healthy (fuel n : Nat) (propertyName : GoString) (w : World)
    (chunks : List GoString) (more : List Drain) (res : mpvCommandResult)
    (hw : w.writeResults = []) (hin : w.incoming = .reads chunks :: more)
    (hdec : decodeLoop n (NewDecoder chunks.flatten) mpvCommandResult.zero = some (true, res))
    (hfuel : n ≤ fuel) :
    mpvGetProperty fuel propertyName w = .ok res.Data
      { w with written := w.written ++ [getPropertyRequest propertyName ++ ['\n']],
               incoming := more } := by
  have h := decodeLoop_mono n fuel _ _ _ hdec hfuel
  simp [mpvGetProperty, ipcSendCmd_healthy _ w hw, Res.andThen, ipcReceiveMsg, hin, h]

theorem mpvGetProperty_eof (fuel n : Nat) (propertyName : GoString) (w : World)
    (chunks : List GoString) (more : List Drain) (res : mpvCommandResult)
    (hw : w.writeResults = []) (hin : w.incoming = .reads chunks :: more)
    (hdec : decodeLoop n (NewDecoder chunks.flatten) mpvCommandResult.zero = some (false, res))
    (hfuel : n ≤ fuel) :
    mpvGetProperty fuel propertyName w = .fatal (.couldntGetProperty propertyName)
      { w with written := w.written ++ [getPropertyRequest propertyName ++ ['\n']],
               incoming := more } := by
  have h := decodeLoop_mono n fuel _ _ _ hdec hfuel
  simp [mpvGetProperty, ipcSendCmd_healthy _ w hw, Res.andThen, ipcReceiveMsg, hin, h]

theorem mpvGetProperty_diverges (fuel : Nat) (propertyName : GoString) (w : World)
    (chunks : List GoString) (more : List Drain)
    (hw : w.writeResults = []) (hin : w.incoming = .reads chunks :: more)
    (h : readValue chunks.flatten = .unexpectedEOF ∨ readValue chunks.flatten = .syntaxError) :
    mpvGetProperty fuel propertyName w = .outOfFuel := by
  have h := decodeLoop_diverges chunks.flatten mpvCommandResult.zero h fuel
  simp [mpvGetProperty, ipcSendCmd_healthy _ w hw, Res.andThen, ipcReceiveMsg, hin, h]

/-! ## Commands -/

theorem addCmdLoop_healthy (isPrint : Char → Bool) (mode : addCmdMode) (args : List GoString) :
    ∀ (w : World), w.writeResults = [] →
    addCmdLoop isPrint mode args w = .ok ()
      { w with written := w.written ++ args.map (fun a => addRequest isPrint mode a ++ ['\n']) } := by
  induction args with
  | nil => intro w _; simp [addCmdLoop]
  | cons a rest ih =>
    intro w hw
    rw [addCmdLoop, ipcSendCmd_healthy _ w hw]
    simp only [Res.andThen]
    rw [ih _ (by simpa using hw)]
    simp


theorem addCmd_healthy (isPrint : Char → Bool) (mode : addCmdMode) (args : List GoString)
    (w : World) (hargs : args ≠ []) (hw : w.writeResults = []) :
    addCmd isPrint mode args w = .ok ()
      { w with written := w.written ++ args.map (fun a => addRequest isPrint mode a ++ ['\n']) } := by
  have hlen : ¬ args.length = 0 := by
    intro h; exact hargs (List.length_eq_zero.mp h)
  rw [addCmd, if_neg hlen, addCmdLoop_healthy isPrint mode args w hw]

/-- C8: for a non-empty argument list and either mode, on a channel that
accepts every write, `addCmd` writes exactly one request line per argument, in
input order: `loadlist <quoted a> <mode>` when `filepath.Ext(a)` is empty and
`loadfile <quoted a> <mode>` otherwise.  Nothing else changes. -/
theorem C8_addCmd_lines (isPrint : Char → Bool) (mode : addCmdMode) (args : List GoString)
    (w : World) (hargs : args ≠ []) (hw : w.writeResults = []) :
    addCmd isPrint mode args w = .ok ()
      { w with written := w.written ++ args.map (fun a =>
          (if filepathExt a = [] then "loadlist ".toList else "loadfile ".toList)
            ++ strconvQuote isPrint a ++ [' '] ++ mode.str ++ ['\n']) } := by
  rw [addCmd_healthy isPrint mode args w hargs hw]
  congr 3
  apply List.map_congr_left
  intro a _
  unfold addRequest
  split <;> simp

/-- Witness of C8: `add mydir track.flac` writes `loadlist "mydir" append`
and then `loadfile "track.flac" append`. -/
theorem C8_addCmd_lines_witness :
    addCmd (fun _ => true) .appendACM ["mydir".toList, "track.flac".toList] (freshWorld [])
      = .ok () { freshWorld [] with written :=
          ["loadlist \"mydir\" append\n".toList, "loadfile \"track.flac\" append\n".toList] } :=
  (C8_addCmd_lines (fun _ => true) .appendACM ["mydir".toList, "track.flac".toList]
    (freshWorld []) (by decide) rfl).trans (by decide)

/-- C7: for a non-empty argument list, on a channel that accepts every write
and answers the property query with a buffer from which the decode loop takes
the boolean `paused`, `playCmd` writes one load request per argument in input
order, each in replace mode, then the `get_property` request for `pause`, then
`cycle pause` once if `paused` is true and nothing more if it is false. -/
theorem C7_playCmd_lines (isPrint : Char → Bool) (fuel n : Nat) (args : List GoString)
    (w : World) (chunks : List GoString) (more : List Drain) (res : mpvCommandResult)
    (paused : Bool) (hargs : args ≠ []) (hw : w.writeResults = [])
    (hin : w.incoming = .reads chunks :: more)
    (hdec : decodeLoop n (NewDecoder chunks.flatten) mpvCommandResult.zero = some (true, res))
    (hdata : res.Data = .bool paused) (hfuel : n ≤ fuel) :
    playCmd isPrint fuel args w = .ok ()
      { w with
        written := w.written
          ++ args.map (fun a =>
              (if filepathExt a = [] then "loadlist ".toList else "loadfile ".toList)
                ++ strconvQuote isPrint a ++ " replace\n".toList)
          ++ [getPropertyRequest "pause".toList ++ ['\n']]
          ++ (if paused then ["cycle pause\n".toList] else []),
        incoming := more } := by
  have hlen : ¬ args.length = 0 := by
    intro h; exact hargs (List.length_eq_zero.mp h)
  have hmap : args.map (fun a => addRequest isPrint .replaceACM a ++ ['\n'])
      = args.map (fun a =>
      (if filepathExt a = [] then "loadlist ".toList else "loadfile ".toList)
        ++ strconvQuote isPrint a ++ " replace\n".toList) := by
    apply List.map_congr_left
    intro a _
    unfold addRequest
    split <;> simp [addCmdMode.str]
  rw [playCmd, if_neg hlen, addCmd_healthy isPrint .replaceACM args w hargs hw, hmap]
  simp only [Res.andThen]
  rw [mpvGetProperty_healthy fuel n _ _ chunks more res (by simpa using hw) (by simpa using hin)
    hdec hfuel, hdata]
  cases paused
  · simp
  · show pauseCmd _ = _
    rw [pauseCmd, ipcSendCmd_healthy _ _ (by simpa using hw)]
    simp


/-- Witness of C7: `play song.mp3` on a paused instance writes
`loadfile "song.mp3" replace`, the `pause` query, and `cycle pause`. -/
theorem C7_playCmd_lines_witness :
    playCmd (fun _ => true) 1 ["song.mp3".toList]
        (freshWorld ["\x7b\"data\":true,\"error\":\"success\",\"request_id\":0\x7d\n".toList])
      = .ok () { freshWorld [] with written :=
          ["loadfile \"song.mp3\" replace\n".toList,
           "\x7b \"command\": [\"get_property\", \"pause\"] \x7d\n".toList,
           "cycle pause\n".toList] } :=
  (C7_playCmd_lines (fun _ => true) 1 1 ["song.mp3".toList]
    (freshWorld ["\x7b\"data\":true,\"error\":\"success\",\"request_id\":0\x7d\n".toList])
    ["\x7b\"data\":true,\"error\":\"success\",\"request_id\":0\x7d\n".toList] []
    ⟨.bool true, "success".toList, 0⟩ true (by decide) rfl rfl (by decide!) rfl
    (Nat.le_refl 1)).trans (by decide!)

/-! ## Decoding the reply -/

theorem foldl_storeResultField_skip (kvs : List (GoString × JSON))
    (acc : mpvCommandResult × Bool)
    (hk : ∀ kv ∈ kvs, keyMatches kv.1 "data".toList = false ∧
      keyMatches kv.1 "error".toList = false ∧ keyMatches kv.1 "request_id".toList = false) :
    kvs.foldl storeResultField acc = acc := by
  induction kvs generalizing acc with
  | nil => rfl
  | cons kv rest ih =>
    have h := hk kv (List.mem_cons_self _ _)
    have hstep : storeResultField acc kv = acc := by
      unfold storeResultField
      simp only [h.1, h.2.1, h.2.2, Bool.false_eq_true, if_false]
    rw [List.foldl_cons, hstep]
    exact ih acc (fun kv1 hkv1 => hk kv1 (List.mem_cons_of_mem _ hkv1))

/-- The defect behind C1 in general: when the buffer begins with a JSON object
that has none of the fields `data`, `error`, `request_id` (a status event), the
first `Decode` returns no error, so the loop ends at once with `res` as it
was; what follows in the buffer is never read. -/
theorem decodeLoop_event_first (buf rest : GoString) (kvs : List (GoString × JSON))
    (res : mpvCommandResult) (h : readValue buf = .value (.obj kvs) rest)
    (hk : ∀ kv ∈ kvs, keyMatches kv.1 "data".toList = false ∧
      keyMatches kv.1 "error".toList = false ∧ keyMatches kv.1 "request_id".toList = false)
    (fuel : Nat) : decodeLoop (fuel + 1) (NewDecoder buf) res = some (true, res) := by
  rw [decodeLoop]
  simp [Decoder.Decode, NewDecoder, h, unmarshalResult, foldl_storeResultField_skip kvs _ hk]

/-- C1 (code defect): the buffer holds the status event `{"event":"idle"}`
followed by the reply `{"data":true,"error":"success","request_id":0}`.  The
event decodes into the result struct without error, so `mpvGetProperty`
returns the event's absent data, `nil`, and not the reply's `true`. -/
theorem C1_event_before_reply (fuel : Nat) :
    mpvGetProperty (fuel + 1) "pause".toList
        (freshWorld ["\x7b\"event\":\"idle\"\x7d\x7b\"data\":true,\"error\":\"success\",\"request_id\":0\x7d".toList])
      = .ok .null
          { freshWorld [] with written := [getPropertyRequest "pause".toList ++ ['\n']] } := by
  have h := mpvGetProperty_healthy (fuel + 1) 1 "pause".toList
    (freshWorld ["\x7b\"event\":\"idle\"\x7d\x7b\"data\":true,\"error\":\"success\",\"request_id\":0\x7d".toList])
    ["\x7b\"event\":\"idle\"\x7d\x7b\"data\":true,\"error\":\"success\",\"request_id\":0\x7d".toList]
    [] mpvCommandResult.zero rfl rfl (by decide!) (by omega)
  rw [h]
  rfl

/-- The reply alone is decoded as C1 expects. -/
theorem mpvGetProperty_reply_alone (fuel : Nat) :
    mpvGetProperty (fuel + 1) "pause".toList
        (freshWorld ["\x7b\"data\":true,\"error\":\"success\",\"request_id\":0\x7d".toList])
      = .ok (.bool true)
          { freshWorld [] with written := [getPropertyRequest "pause".toList ++ ['\n']] } := by
  have h := mpvGetProperty_healthy (fuel + 1) 1 "pause".toList
    (freshWorld ["\x7b\"data\":true,\"error\":\"success\",\"request_id\":0\x7d".toList])
    ["\x7b\"data\":true,\"error\":\"success\",\"request_id\":0\x7d".toList]
    [] ⟨.bool true, "success".toList, 0⟩ rfl rfl (by decide!) (by omega)
  rw [h]
  rfl

/-- C2 (code defect): on a reply cut off inside a value (`{"data":tr`) and on
a buffer that is not JSON (`}`), `Decode` returns an error that is not
`io.EOF` and returns it again on every later call, so the loop of
`mpvGetProperty` neither fails nor returns: whatever the fuel, it is used up. -/
theorem C2_decode_loop_never_ends (fuel : Nat) :
    mpvGetProperty fuel "pause".toList (freshWorld ["\x7b\"data\":tr".toList]) = .outOfFuel ∧
    mpvGetProperty fuel "pause".toList (freshWorld ["\x7d".toList]) = .outOfFuel :=
  ⟨mpvGetProperty_diverges fuel _ (freshWorld ["\x7b\"data\":tr".toList])
      ["\x7b\"data\":tr".toList] [] rfl rfl (Or.inl (by decide!)),
   mpvGetProperty_diverges fuel _ (freshWorld ["\x7d".toList])
      ["\x7d".toList] [] rfl rfl (Or.inr (by decide!))⟩

/-- The part of C2 that holds: on the empty buffer, and on a buffer with only
messages of the wrong type, the loop reaches `io.EOF` and the function fails
naming the property. -/
theorem mpvGetProperty_no_message (fuel : Nat) :
    mpvGetProperty (fuel + 1) "pause".toList (freshWorld [[]])
      = .fatal (.couldntGetProperty "pause".toList)
          { freshWorld [] with written := [getPropertyRequest "pause".toList ++ ['\n']] } ∧
    mpvGetProperty (fuel + 3) "pause".toList (freshWorld ["[1] \x7b\"error\":5\x7d\n".toList])
      = .fatal (.couldntGetProperty "pause".toList)
          { freshWorld [] with written := [getPropertyRequest "pause".toList ++ ['\n']] } := by
  constructor
  · have h := mpvGetProperty_eof (fuel + 1) 1 "pause".toList (freshWorld [[]]) [[]] []
      mpvCommandResult.zero rfl rfl (by decide!) (by omega)
    rw [h]; rfl
  · have h := mpvGetProperty_eof (fuel + 3) 3 "pause".toList
      (freshWorld ["[1] \x7b\"error\":5\x7d\n".toList]) ["[1] \x7b\"error\":5\x7d\n".toList] []
      mpvCommandResult.zero rfl rfl (by decide!) (by omega)
    rw [h]; rfl

/-! ## Type mismatches -/

/-- The part of C6 that holds for `playlistCmd`: a property value that is a
boolean, a number, a string or an object ends the command in `check(err)`,
after `json.Unmarshal` or, for a value that cannot be marshalled, after
`json.Marshal`. -/
theorem playlistCmd_type_mismatch (fuel n : Nat) (args : List GoString) (w : World)
    (chunks : List GoString) (more : List Drain) (res : mpvCommandResult)
    (hw : w.writeResults = []) (hin : w.incoming = .reads chunks :: more)
    (hdec : decodeLoop n (NewDecoder chunks.flatten) mpvCommandResult.zero = some (true, res))
    (hfuel : n ≤ fuel)
    (hdata : (∃ b, res.Data = .bool b) ∨ (∃ t, res.Data = .num t) ∨ (∃ s, res.Data = .str s) ∨
      (∃ kvs, res.Data = .obj kvs)) :
    ∃ site, (site = CheckSite.marshal ∨ site = CheckSite.unmarshal) ∧
      playlistCmd fuel args w = .fatal (.unexpectedError site)
        { w with written := w.written ++ [getPropertyRequest "playlist".toList ++ ['\n']],
                 incoming := more } := by
  rw [playlistCmd, mpvGetProperty_healthy fuel n _ w chunks more res hw hin hdec hfuel]
  simp only [Res.andThen]
  unfold jsonMarshal
  by_cases hr : res.Data.rangeErr = true
  · exact ⟨.marshal, Or.inl rfl, by simp [hr]⟩
  · refine ⟨.unmarshal, Or.inr rfl, ?_⟩
    simp only [hr, Bool.false_eq_true, if_false]
    rcases hdata with ⟨b, h⟩ | ⟨t, h⟩ | ⟨s, h⟩ | ⟨kvs, h⟩ <;> rw [h] <;> rfl

/-- The part of C6 that holds for `playCmd`: a `pause` value that is not a
boolean ends the command with a panic, after the load requests and the query
and before any `cycle pause`. -/
theorem playCmd_pause_not_bool (isPrint : Char → Bool) (fuel n : Nat) (args : List GoString)
    (w : World) (chunks : List GoString) (more : List Drain) (res : mpvCommandResult)
    (hargs : args ≠ []) (hw : w.writeResults = [])
    (hin : w.incoming = .reads chunks :: more)
    (hdec : decodeLoop n (NewDecoder chunks.flatten) mpvCommandResult.zero = some (true, res))
    (hfuel : n ≤ fuel) (hdata : ∀ b, res.Data ≠ .bool b) :
    playCmd isPrint fuel args w = .fatal .panic
      { w with
        written := w.written
          ++ args.map (fun a => addRequest isPrint .replaceACM a ++ ['\n'])
          ++ [getPropertyRequest "pause".toList ++ ['\n']],
        incoming := more } := by
  have hlen : ¬ args.length = 0 := by
    intro h; exact hargs (List.length_eq_zero.mp h)
  rw [playCmd, if_neg hlen, addCmd_healthy isPrint .replaceACM args w hargs hw]
  simp only [Res.andThen]
  rw [mpvGetProperty_healthy fuel n _ _ chunks more res (by simpa using hw) (by simpa using hin)
    hdec hfuel]
  cases hd : res.Data with
  | bool b => exact absurd hd (hdata b)
  | null => simp
  | num t => simp
  | str s => simp
  | arr xs => simp
  | obj kvs => simp

/-- C6 (code defect): the reply to the `playlist` query is the error reply
`{"request_id":0,"error":"property unavailable"}`, or carries `"data":null`.
The data payload is `nil`, which marshals to `null` and unmarshals into the
entry slice without error, so `playlistCmd` prints an empty listing and
returns normally instead of failing with a decode error. -/
theorem C6_null_playlist_listed_as_empty (fuel : Nat) :
    playlistCmd (fuel + 1) []
        (freshWorld ["\x7b\"request_id\":0,\"error\":\"property unavailable\"\x7d\n".toList])
      = .ok () { freshWorld [] with
          written := [getPropertyRequest "playlist".toList ++ ['\n']], stdout := [] } ∧
    playlistCmd (fuel + 1) []
        (freshWorld ["\x7b\"data\":null,\"request_id\":0,\"error\":\"success\"\x7d\n".toList])
      = .ok () { freshWorld [] with
          written := [getPropertyRequest "playlist".toList ++ ['\n']], stdout := [] } := by
  constructor
  · rw [playlistCmd, mpvGetProperty_healthy (fuel + 1) 1 _
      (freshWorld ["\x7b\"request_id\":0,\"error\":\"property unavailable\"\x7d\n".toList])
      ["\x7b\"request_id\":0,\"error\":\"property unavailable\"\x7d\n".toList] []
      ⟨.null, "property unavailable".toList, 0⟩ rfl rfl (by decide!) (by omega)]
    rfl
  · rw [playlistCmd, mpvGetProperty_healthy (fuel + 1) 1 _
      (freshWorld ["\x7b\"data\":null,\"request_id\":0,\"error\":\"success\"\x7d\n".toList])
      ["\x7b\"data\":null,\"request_id\":0,\"error\":\"success\"\x7d\n".toList] []
      ⟨.null, "success".toList, 0⟩ rfl rfl (by decide!) (by omega)]
    rfl

/-! ## The playlist command -/

theorem strconvItoa_natCast (j : Nat) : strconvItoa (j : Int) = natToDec j := by
  simp [strconvItoa]

theorem numDigits_natCast_mono (j n : Nat) (h : j ≤ n) :
    numDigits (j : Int) ≤ numDigits (n : Int) := by
  simp only [numDigits, strconvItoa_natCast]
  exact natToDec_length_mono n j h

theorem println_eq (line : GoString) (w : World) :
    println line w = .ok () { w with stdout := w.stdout ++ [line] } := rfl

theorem printPlaylist_lines (k : Nat) (rest : List playlistEntry) :
    ∀ (i : Nat) (w : World), (∀ j, i ≤ j → j < i + rest.length → numDigits (j : Int) ≤ k) →
    printPlaylist (k + 2) i rest w = .ok ()
      { w with stdout := w.stdout ++ (List.enumFrom i rest).map (fun iv =>
          (if iv.2.Current then '>' :: List.replicate (k + 1 - numDigits (iv.1 : Int)) ' '
           else List.replicate (k + 2 - numDigits (iv.1 : Int)) ' ')
          ++ strconvItoa (iv.1 : Int) ++ ['\t'] ++ filepathBase iv.2.Filename) } := by
  induction rest with
  | nil => intro i w _; simp [printPlaylist]
  | cons v rest ih =>
    intro i w hk
    have hi : numDigits (i : Int) ≤ k := hk i (Nat.le_refl i) (by simp)
    have hrest : ∀ j, i + 1 ≤ j → j < i + 1 + rest.length → numDigits (j : Int) ≤ k := by
      intro j h1 h2
      exact hk j (by omega) (by simp only [List.length_cons]; omega)
    have hrep : List.replicate (k + 2 - numDigits (i : Int)) ' '
        = ' ' :: List.replicate (k + 1 - numDigits (i : Int)) ' ' := by
      have : k + 2 - numDigits (i : Int) = (k + 1 - numDigits (i : Int)) + 1 := by omega
      rw [this, List.replicate_succ]
    rw [printPlaylist]
    by_cases hc : v.Current = true
    · simp only [hc, if_true, playlistLine, fmtStarD]
      have hl : (strconvItoa (i : Int)).length = numDigits (i : Int) := rfl
      rw [hl, hrep]
      simp only [List.cons_append, markCurrent, println_eq, Res.andThen]
      rw [ih (i + 1) _ hrest]
      simp [List.enumFrom, hc]
    · simp only [hc, if_false, playlistLine, fmtStarD, Bool.false_eq_true]
      have hl : (strconvItoa (i : Int)).length = numDigits (i : Int) := rfl
      rw [hl]
      simp only [println_eq, Res.andThen]
      rw [ih (i + 1) _ hrest]
      simp [List.enumFrom, hc]

/-- C10 as amended: on a channel that accepts every write and answers the
`playlist` query with messages that hold no number beyond the range of
`float64` and from which the decode loop takes a playlist of `n` entries,
`playlistCmd` without arguments prints exactly `n` lines, one per entry in
playlist order.  The line of a non-current entry is its zero-based index
right-justified in a field of `numDigits(n) + 2` characters, a tab, and the
base name.  The line of a current entry is the same line with its first
character, a padding space, replaced by `>`: the index is still shown. -/
theorem C10_listing_lines (fuel n : Nat) (w : World) (chunks : List GoString)
    (more : List Drain) (res : mpvCommandResult) (pl : List playlistEntry)
    (hw : w.writeResults = []) (hin : w.incoming = .reads chunks :: more)
    (hdec : decodeLoop n (NewDecoder chunks.flatten) mpvCommandResult.zero = some (true, res))
    (_hfin : ∀ v ∈ valuesRead n chunks.flatten, v.rangeErr = false)
    (hpl : (jsonMarshal res.Data).bind unmarshalPlaylist = some pl) (hfuel : n ≤ fuel) :
    playlistCmd fuel [] w = .ok ()
      { w with
        written := w.written ++ [getPropertyRequest "playlist".toList ++ ['\n']],
        incoming := more,
        stdout := w.stdout ++ (List.enumFrom 0 pl).map (fun iv =>
          (if iv.2.Current then
             '>' :: List.replicate (numDigits (pl.length : Int) + 1 - numDigits (iv.1 : Int)) ' '
           else List.replicate (numDigits (pl.length : Int) + 2 - numDigits (iv.1 : Int)) ' ')
          ++ strconvItoa (iv.1 : Int) ++ ['\t'] ++ filepathBase iv.2.Filename) } ∧
    ((List.enumFrom 0 pl).map (fun iv =>
          (if iv.2.Current then
             '>' :: List.replicate (numDigits (pl.length : Int) + 1 - numDigits (iv.1 : Int)) ' '
           else List.replicate (numDigits (pl.length : Int) + 2 - numDigits (iv.1 : Int)) ' ')
          ++ strconvItoa (iv.1 : Int) ++ ['\t'] ++ filepathBase iv.2.Filename)).length
      = pl.length := by
  refine ⟨?_, by simp⟩
  obtain ⟨raw, hraw, hun⟩ := Option.bind_eq_some.mp hpl
  rw [playlistCmd, mpvGetProperty_healthy fuel n _ w chunks more res hw hin hdec hfuel]
  simp only [Res.andThen, hraw, hun]
  rw [printPlaylist_lines (numDigits (pl.length : Int)) pl 0 _
    (fun j _ h => numDigits_natCast_mono j pl.length (by omega))]

theorem examplePlaylistReply_decodes :
    ∃ res, decodeLoop 1 (NewDecoder [examplePlaylistReply].flatten) mpvCommandResult.zero
        = some (true, res) ∧
      (jsonMarshal res.Data).bind unmarshalPlaylist = some examplePlaylist := by
  refine ⟨⟨.arr [.obj [("filename".toList, .str "/music/a.mp3".toList), ("id".toList, .num ['1'])],
      .obj [("filename".toList, .str "/music/b.mp3".toList), ("current".toList, .bool true),
        ("playing".toList, .bool true), ("id".toList, .num ['2'])],
      .obj [("filename".toList, .str "/music/c.mp3".toList), ("id".toList, .num ['3'])]],
      "success".toList, 0⟩, by decide!, by decide!⟩

theorem examplePlaylistReply_finite :
    ∀ v ∈ valuesRead 1 [examplePlaylistReply].flatten, v.rangeErr = false := by
  decide!

/-- Witness of C10 as amended: three entries, the second one current, print
as `  0`, `> 1` and `  2`, each followed by a tab and the base name. -/
theorem C10_listing_lines_witness :
    (∀ v ∈ valuesRead 1 [examplePlaylistReply].flatten, v.rangeErr = false) ∧
    playlistCmd 1 [] (freshWorld [examplePlaylistReply]) = .ok ()
      { freshWorld [] with
        written := [getPropertyRequest "playlist".toList ++ ['\n']],
        stdout := ["  0\ta.mp3".toList, "> 1\tb.mp3".toList, "  2\tc.mp3".toList] } := by
  obtain ⟨res, h1, h2⟩ := examplePlaylistReply_decodes
  exact ⟨examplePlaylistReply_finite,
    (C10_listing_lines 1 1 (freshWorld [examplePlaylistReply]) [examplePlaylistReply] [] res
      examplePlaylist rfl rfl h1 examplePlaylistReply_finite h2 (Nat.le_refl 1)).1.trans
      (by decide!)⟩

/-- C10 as stated fails: with three entries and the second one current, the
second line printed is `> 1<tab>b.mp3`.  The `>` stands where a padding space
stood; the index `1` is still there, between the `>` and the tab. -/
theorem C10_current_line_keeps_index :
    playlistCmd 1 [] (freshWorld [examplePlaylistReply]) = .ok ()
      { freshWorld [] with
        written := [getPropertyRequest "playlist".toList ++ ['\n']],
        stdout := ["  0\ta.mp3".toList, "> 1\tb.mp3".toList, "  2\tc.mp3".toList] } ∧
    "> 1\tb.mp3".toList = '>' :: ' ' :: (strconvItoa 1 ++ '\t' :: filepathBase "/music/b.mp3".toList) ∧
    "> 1\tb.mp3".toList ≠ '>' :: '\t' :: filepathBase "/music/b.mp3".toList := by
  decide!

theorem strconvAtoi_raw : strconvAtoi "raw".toList = none := by decide

/-- C5 as amended: on a channel that accepts every write and answers the
`playlist` query with messages that hold no number beyond the range of
`float64` and from which the decode loop takes a playlist of `n` entries,
`playlistCmd` with an argument that `strconv.Atoi` reads as `pos` first writes
the `get_property` request for `playlist`; then, if `pos < 0` or `pos >= n`,
it fails with the range error naming `pos` and writes nothing more, and
otherwise it writes `playlist-play-index pos`. -/
theorem C5_playlist_index (fuel n : Nat) (w : World) (chunks : List GoString)
    (more : List Drain) (res : mpvCommandResult) (pl : List playlistEntry)
    (arg : GoString) (others : List GoString) (pos : Int)
    (hw : w.writeResults = []) (hin : w.incoming = .reads chunks :: more)
    (hdec : decodeLoop n (NewDecoder chunks.flatten) mpvCommandResult.zero = some (true, res))
    (_hfin : ∀ v ∈ valuesRead n chunks.flatten, v.rangeErr = false)
    (hpl : (jsonMarshal res.Data).bind unmarshalPlaylist = some pl) (hfuel : n ≤ fuel)
    (hpos : strconvAtoi arg = some pos) :
    playlistCmd fuel (arg :: others) w =
      if pos < 0 ∨ pos ≥ pl.length then
        .fatal (.incorrectPlaylistPosition pos)
          { w with written := w.written ++ [getPropertyRequest "playlist".toList ++ ['\n']],
                   incoming := more }
      else
        .ok ()
          { w with written := w.written ++ [getPropertyRequest "playlist".toList ++ ['\n'],
                     "playlist-play-index ".toList ++ strconvItoa pos ++ ['\n']],
                   incoming := more } := by
  have hraw : arg ≠ "raw".toList := by
    intro h; rw [h, strconvAtoi_raw] at hpos; cases hpos
  obtain ⟨raw, hmar, hun⟩ := Option.bind_eq_some.mp hpl
  rw [playlistCmd, mpvGetProperty_healthy fuel n _ w chunks more res hw hin hdec hfuel]
  simp only [Res.andThen, hmar, hun, if_neg hraw, hpos]
  split
  · rfl
  · rw [ipcSendCmd_healthy _ _ (by simpa using hw)]
    simp [fmtD]

/-- Witness of C5 as amended: with three entries, `playlist 3` fails after the
query and `playlist 2` sends `playlist-play-index 2`. -/
theorem C5_playlist_index_witness :
    (∀ v ∈ valuesRead 1 [examplePlaylistReply].flatten, v.rangeErr = false) ∧
    playlistCmd 1 ["3".toList] (freshWorld [examplePlaylistReply])
      = .fatal (.incorrectPlaylistPosition 3)
          { freshWorld [] with written := [getPropertyRequest "playlist".toList ++ ['\n']] } ∧
    playlistCmd 1 ["2".toList] (freshWorld [examplePlaylistReply])
      = .ok ()
          { freshWorld [] with written := [getPropertyRequest "playlist".toList ++ ['\n'],
              "playlist-play-index 2\n".toList] } := by
  obtain ⟨res, h1, h2⟩ := examplePlaylistReply_decodes
  exact ⟨examplePlaylistReply_finite,
    (C5_playlist_index 1 1 (freshWorld [examplePlaylistReply]) [examplePlaylistReply] [] res
      examplePlaylist "3".toList [] 3 rfl rfl h1 examplePlaylistReply_finite h2 (Nat.le_refl 1)
      (by decide)).trans (by decide!),
    (C5_playlist_index 1 1 (freshWorld [examplePlaylistReply]) [examplePlaylistReply] [] res
      examplePlaylist "2".toList [] 2 rfl rfl h1 examplePlaylistReply_finite h2 (Nat.le_refl 1)
      (by decide)).trans (by decide!)⟩

/-- C5 as stated fails: with three entries, `playlist 3` fails with the range
error, but not without a write: the `get_property` request for `playlist` has
been written by then. -/
theorem C5_range_error_after_a_write :
    playlistCmd 1 ["3".toList] (freshWorld [examplePlaylistReply])
      = .fatal (.incorrectPlaylistPosition 3)
          { freshWorld [] with written := [getPropertyRequest "playlist".toList ++ ['\n']] } ∧
    ¬ ∃ w1, playlistCmd 1 ["3".toList] (freshWorld [examplePlaylistReply])
        = .fatal (.incorrectPlaylistPosition 3) w1 ∧
        w1.written = (freshWorld [examplePlaylistReply]).written := by
  have h : playlistCmd 1 ["3".toList] (freshWorld [examplePlaylistReply])
      = .fatal (.incorrectPlaylistPosition 3)
          { freshWorld [] with written := [getPropertyRequest "playlist".toList ++ ['\n']] } := by
    decide!
  refine ⟨h, ?_⟩
  rintro ⟨w1, h1, h2⟩
  rw [h] at h1
  injection h1 with _ hw1
  rw [← hw1] at h2
  revert h2
  decide


end MpvMp
